import Mathlib

/-!
# go-philosophers: rule-based tic-tac-toe agents

A shallow embedding of `main.go`.  Go `byte` values are natural numbers (the two places
where byte arithmetic can wrap, `g.turn++` and `tmp[0][i] - 48`, reduce modulo 256
explicitly), a `[9]byte` array is a function `Fin 9 → Nat`, `float64` weights are exact
rationals, and a Go runtime fault (index out of range) is the value `none`.
-/

namespace Philosophers

/-! ## Data model -/

/-- A nine-cell array, the embedding of Go's `[9]byte`. -/
abbrev Cells := Fin 9 → Nat

/-- The rule type `PhilosopherRule`: pattern `value`, target `result`, weight `w`. -/
structure PhilosopherRule where
  value : Cells
  result : Nat
  w : ℚ

/-- The game type `PhilosopherGame`: the board and the turn counter. -/
structure PhilosopherGame where
  board : Cells
  turn : Nat

/-- The interface `GeneticRuleAdapter`: each method receives a pointer to one rule and may
update it. -/
structure GeneticRuleAdapter where
  match_ : PhilosopherRule → PhilosopherRule
  unmatch : PhilosopherRule → PhilosopherRule
  invalid : PhilosopherRule → PhilosopherRule

/-- The agent type `Philosopher`. -/
structure Philosopher where
  name : String
  rules : List PhilosopherRule
  adapter : GeneticRuleAdapter

/-- The adapter `DefaultGeneticRuleAdapter`: `r.w++`, `r.w--`, `r.w -= 100`. -/
def DefaultGeneticRuleAdapter : GeneticRuleAdapter where
  match_ := fun r => { r with w := r.w + 1 }
  unmatch := fun r => { r with w := r.w - 1 }
  invalid := fun r => { r with w := r.w - 100 }

/-! ## Random rules -/

/-- The function `inititializeRandomRule`.  The random source is the sequence `src` of
raw outcomes read from position `pos` on; `rand.Intn(n)` is the next outcome modulo `n`,
so every result in `[0,n)` can occur.  The loop draws the nine pattern cells in turn,
then the weight is set to 0 and the target is drawn.  The second component is the
position of the source after the call. -/
def inititializeRandomRule (src : Nat → Nat) (pos : Nat) (r : PhilosopherRule) :
    PhilosopherRule × Nat :=
  let filled := (List.finRange 9).foldl
    (fun (acc : Cells × Nat) i => (Function.update acc.1 i (src acc.2 % 4 % 256), acc.2 + 1))
    (r.value, pos)
  ({ value := filled.1, result := src filled.2 % 9 % 256, w := 0 }, filled.2 + 1)

/-- An element of a slice fresh from `make`: all fields zero. -/
def zeroRule : PhilosopherRule := ⟨fun _ => 0, 0, 0⟩

/-- The loop of `initializeRandomRules` over the `n` elements of `tmp` not yet
initialized. -/
def randomRulesLoop (src : Nat → Nat) : Nat → Nat → List PhilosopherRule × Nat
  | 0, pos => ([], pos)
  | n + 1, pos =>
    let first := inititializeRandomRule src pos zeroRule
    let rest := randomRulesLoop src n first.2
    (first.1 :: rest.1, rest.2)

/-- The function `initializeRandomRules`; `make` with a negative `count` is a runtime
fault. -/
def initializeRandomRules (src : Nat → Nat) (pos : Nat) (p : Philosopher) (count : Int) :
    Option (Philosopher × Nat) :=
  if count < 0 then none
  else
    let out := randomRulesLoop src count.toNat pos
    some (⟨p.name, out.1, p.adapter⟩, out.2)

/-! ## Rule evaluation -/

/-- The loop of `evalRule`: scanning cells `0..8` in order, is there a cell whose pattern
value is neither 3 nor the board value? -/
def patternMismatch (board value : Cells) : Bool :=
  (List.finRange 9).any fun i => value i != 3 && value i != board i

/-- The function `evalRule`: 128 on a pattern mismatch, otherwise 129 when the target cell
is occupied, otherwise the target.  Indexing the board at a target above 8 is a runtime
fault. -/
def evalRule (g : PhilosopherGame) (r : PhilosopherRule) : Option Nat :=
  if patternMismatch g.board r.value then some 128
  else if h : r.result < 9 then
    if g.board ⟨r.result, h⟩ ≠ 0 then some 129 else some r.result
  else none

/-! ## Winner evaluation -/

/-- The table `v` of `evalWinner`. -/
def winLines : List (Fin 9 × Fin 9 × Fin 9) :=
  [(0, 1, 2), (3, 4, 5), (6, 7, 8), (0, 3, 6), (1, 4, 7), (2, 5, 8), (0, 4, 8), (2, 4, 6)]

/-- The loop of `evalWinner` over the remaining lines. -/
def evalWinnerLoop (board : Cells) : List (Fin 9 × Fin 9 × Fin 9) → Nat
  | [] => 0
  | (a, b, c) :: rest =>
    let t := board a
    if t > 0 ∧ t = board b ∧ t = board c then t else evalWinnerLoop board rest

/-- The function `evalWinner`. -/
def evalWinner (g : PhilosopherGame) : Nat :=
  evalWinnerLoop g.board winLines

/-! ## One move -/

/-- The loop of `simulateMove` over the rules not yet scanned.  The first rule whose
result is at most 8 writes the mark, receives `match` and ends the scan; a rule with
result 128 receives `unmatch`, one with result 129 receives `invalid`. -/
def simulateMoveLoop (adapter : GeneticRuleAdapter) (playerValue : Nat)
    (g : PhilosopherGame) : List PhilosopherRule → Option (PhilosopherGame × List PhilosopherRule)
  | [] => some (g, [])
  | rule :: rest =>
    match evalRule g rule with
    | none => none
    | some ruleResult =>
      if h : ruleResult ≤ 8 then
        some (⟨Function.update g.board ⟨ruleResult, Nat.lt_succ_of_le h⟩ playerValue, g.turn⟩,
              adapter.match_ rule :: rest)
      else if ruleResult = 128 then
        (simulateMoveLoop adapter playerValue g rest).map
          fun out => (out.1, adapter.unmatch rule :: out.2)
      else if ruleResult = 129 then
        (simulateMoveLoop adapter playerValue g rest).map
          fun out => (out.1, adapter.invalid rule :: out.2)
      else
        (simulateMoveLoop adapter playerValue g rest).map
          fun out => (out.1, rule :: out.2)

/-- The function `simulateMove`: the game and the agent after the call, or `none` when
the call faults. -/
def simulateMove (g : PhilosopherGame) (p : Philosopher) (playerValue : Nat) :
    Option (PhilosopherGame × Philosopher) :=
  (simulateMoveLoop p.adapter playerValue g p.rules).map
    fun out => (out.1, { p with rules := out.2 })

/-! ## One game -/

/-- The function `initializeGame`: the loop writes 0 to the cells `0..8` in turn, then
the turn counter is set to 0. -/
def initializeGame (g : PhilosopherGame) : PhilosopherGame :=
  { board := (List.finRange 9).foldl (fun board i => Function.update board i 0) g.board
    turn := 0 }

/-- What the loop of `simulateGame` carries from one iteration to the next: the local
`winner` and the three objects behind the pointers `g`, `p01`, `p02`. -/
structure GameState where
  winner : Nat
  g : PhilosopherGame
  p01 : Philosopher
  p02 : Philosopher

/-- The loop condition of `simulateGame`. -/
def loopGuard (s : GameState) : Bool :=
  (s.winner == 0 || s.winner == 3) && decide (s.g.turn < 10)

/-- The loop body of `simulateGame`: `g.turn++` on a byte, the choice of the acting
player by the parity of the new turn, `simulateMove`, then `evalWinner`. -/
def turnBody (s : GameState) : Option GameState :=
  let g1 : PhilosopherGame := { s.g with turn := (s.g.turn + 1) % 256 }
  if g1.turn % 2 = 1 then
    match simulateMove g1 s.p01 1 with
    | none => none
    | some (g2, p) => some { winner := evalWinner g2, g := g2, p01 := p, p02 := s.p02 }
  else
    match simulateMove g1 s.p02 2 with
    | none => none
    | some (g2, p) => some { winner := evalWinner g2, g := g2, p01 := s.p01, p02 := p }

/-- How a run of the loop ends: the loop is left in a state, a move faults, or the
iteration budget of the model is used up with the loop condition still true. -/
inductive Run where
  | returned (s : GameState)
  | fault
  | outOfFuel

/-- The loop of `simulateGame`, run for at most `fuel` iterations. -/
def simulateGameLoop : Nat → GameState → Run
  | 0, s => if loopGuard s then Run.outOfFuel else Run.returned s
  | fuel + 1, s =>
    if loopGuard s then
      match turnBody s with
      | none => Run.fault
      | some s1 => simulateGameLoop fuel s1
    else Run.returned s

/-- The function `simulateGame`; `winner` starts at the zero value.  Ten iterations are
a sufficient budget (`simulateGame_fuel`). -/
def simulateGame (g : PhilosopherGame) (p01 p02 : Philosopher) : Run :=
  simulateGameLoop 10 { winner := 0, g := g, p01 := p01, p02 := p02 }

/-- The states after each executed turn of the loop of `simulateGame`, in order, over at
most `fuel` iterations: the trace of the game. -/
def gameTrace : Nat → GameState → List GameState
  | 0, _ => []
  | fuel + 1, s =>
    if loopGuard s then
      match turnBody s with
      | none => []
      | some s1 => s1 :: gameTrace fuel s1
    else []

/-- The loop of `run` over `count` games: each iteration resets the game with
`initializeGame` and plays it with `simulateGame`; a fault ends the run (`none`).  A
negative `count` runs no iteration, as `count = 0`. -/
def runGames : Nat → PhilosopherGame → Philosopher → Philosopher →
    Option (PhilosopherGame × Philosopher × Philosopher)
  | 0, g, p01, p02 => some (g, p01, p02)
  | count + 1, g, p01, p02 =>
    match simulateGame (initializeGame g) p01 p02 with
    | Run.returned s => runGames count s.g s.p01 s.p02
    | _ => none

/-! ## Rule files -/

/-- The call `fmt.Sprint` on a `byte`: its decimal digits. -/
def sprintByte (b : Nat) : List Nat := (Nat.toDigits 10 b).map Char.toNat

/-- The text that `writeRulesToFile` writes for one rule, before the newline: the nine
pattern cells, a tab, the target, a tab, the weight.  The formatting of a `float64` by
`fmt.Sprint` is the parameter `sprintFloat`. -/
def ruleLine (sprintFloat : ℚ → List Nat) (r : PhilosopherRule) : List Nat :=
  (List.finRange 9).flatMap (fun z => sprintByte (r.value z)) ++ [9] ++
    sprintByte r.result ++ [9] ++ sprintFloat r.w

/-- The function `writeRulesToFile`: the bytes written to the file. -/
def writeRulesToFile (sprintFloat : ℚ → List Nat) (p : Philosopher) : List Nat :=
  p.rules.flatMap fun r => ruleLine sprintFloat r ++ [10]

/-- The call `strings.Split(s, "\t")` for the one-byte separator `sep`. -/
def split (sep : Nat) : List Nat → List (List Nat)
  | [] => [[]]
  | c :: cs =>
    if c = sep then [] :: split sep cs
    else
      match split sep cs with
      | [] => [[c]]
      | f :: fs => (c :: f) :: fs

/-- The helper `dropCR` of `bufio.ScanLines`: a final carriage return is dropped. -/
def dropCR (data : List Nat) : List Nat :=
  if data.getLast? = some 13 then data.dropLast else data

/-- The constant `bufio.MaxScanTokenSize`, `64 * 1024`: the largest buffer a scanner
allocates. -/
def maxScanTokenSize : Nat := 65536

/-- The tokens of `bufio.Scanner` with `bufio.ScanLines` on the rest of the input, `tok`
being the bytes of the line read so far: a line ends at a newline, a last line without
newline counts when it is not empty.  When the line read so far fills the buffer of
`maxScanTokenSize` bytes without a newline, `Scan` returns false with `ErrTooLong` and no
further token is produced. -/
def scanLinesFrom (tok : List Nat) : List Nat → List (List Nat)
  | [] => if tok = [] then [] else [dropCR tok]
  | c :: cs =>
    if c = 10 then dropCR tok :: scanLinesFrom [] cs
    else if maxScanTokenSize ≤ tok.length + 1 then []
    else scanLinesFrom (tok ++ [c]) cs

/-- The lines that the scanner of `readRulesFromFile` yields for a file content.  The
loop `for scanner.Scan()` ends when `Scan` returns false, at the end of the file or at a
line that is too long, and `scanner.Err()` is never read. -/
def scanLines (data : List Nat) : List (List Nat) := scanLinesFrom [] data

/-- The function `parseRule`.  Indexing `tmp`, `tmp[0]` or `tmp[1]` out of range is a
runtime fault; `byte - 48` wraps modulo 256; the error of `strconv.ParseFloat`, the second
component of the parameter `parseFloat`, is discarded. -/
def parseRule (parseFloat : List Nat → ℚ × Bool) (value : List Nat) :
    Option PhilosopherRule :=
  let tmp := split 9 value
  match tmp[0]? with
  | none => none
  | some f0 =>
    if h : 9 ≤ f0.length then
      match tmp[1]? with
      | none => none
      | some f1 =>
        match f1[0]? with
        | none => none
        | some b =>
          match tmp[2]? with
          | none => none
          | some f2 =>
            some { value := fun i => (f0.get ⟨i.val, Nat.lt_of_lt_of_le i.isLt h⟩ + 256 - 48) % 256
                   result := (b + 256 - 48) % 256
                   w := (parseFloat f2).1 }
    else none

/-- The loop of `readRulesFromFile` over the scanned lines: the first line on which
`parseRule` faults aborts the load. -/
def parseLines (parseFloat : List Nat → ℚ × Bool) :
    List (List Nat) → Option (List PhilosopherRule)
  | [] => some []
  | line :: rest =>
    match parseRule parseFloat line with
    | none => none
    | some rule => (parseLines parseFloat rest).map fun rules => rule :: rules

/-- The function `readRulesFromFile` on the content of the file. -/
def readRulesFromFile (parseFloat : List Nat → ℚ × Bool) (p : Philosopher)
    (content : List Nat) : Option Philosopher :=
  (parseLines parseFloat (scanLines content)).map fun rules => { p with rules := rules }

/-! ## Vocabulary of the specification -/

/-- Player `p` holds the three cells `i`, `j`, `k`. -/
def holds (board : Cells) (p : Nat) (i j k : Fin 9) : Prop :=
  board i = p ∧ board j = p ∧ board k = p

instance (board : Cells) (p : Nat) (i j k : Fin 9) : Decidable (holds board p i j k) := by
  unfold holds; infer_instance

/-- Player `p` holds one of the eight lines: a row, a column or a diagonal. -/
def hasLine (board : Cells) (p : Nat) : Prop :=
  holds board p 0 1 2 ∨ holds board p 3 4 5 ∨ holds board p 6 7 8 ∨
  holds board p 0 3 6 ∨ holds board p 1 4 7 ∨ holds board p 2 5 8 ∨
  holds board p 0 4 8 ∨ holds board p 2 4 6

instance (board : Cells) (p : Nat) : Decidable (hasLine board p) := by
  unfold hasLine; infer_instance

/-- The three cells of the line hold one non-empty value. -/
def lineComplete (board : Cells) (l : Fin 9 × Fin 9 × Fin 9) : Prop :=
  board l.1 ≠ 0 ∧ board l.1 = board l.2.1 ∧ board l.1 = board l.2.2

instance (board : Cells) (l : Fin 9 × Fin 9 × Fin 9) : Decidable (lineComplete board l) := by
  unfold lineComplete; infer_instance

/-- The rule evaluates to MATCH on the game: `evalRule` returns a cell index. -/
def isMatch (g : PhilosopherGame) (r : PhilosopherRule) : Bool :=
  match evalRule g r with
  | some t => decide (t ≤ 8)
  | none => false

/-- No rule at an index below `i` evaluates to MATCH: rule `i` is reached by the scan. -/
def noMatchBefore (g : PhilosopherGame) (rules : List PhilosopherRule) (i : Nat) : Prop :=
  ∀ (j : Nat) (x : PhilosopherRule), j < i → rules[j]? = some x → isMatch g x = false

/-- Some rule at an index below `i` evaluates to MATCH: the scan ends before rule `i`. -/
def matchBefore (g : PhilosopherGame) (rules : List PhilosopherRule) (i : Nat) : Prop :=
  ∃ (j : Nat) (x : PhilosopherRule), j < i ∧ rules[j]? = some x ∧ isMatch g x = true

/-- The effect of one scan on the game and on every rule, by the rule's evaluation on the
input board and its position relative to the first match. -/
def MoveEffect (ad : GeneticRuleAdapter) (pv : Nat) (g : PhilosopherGame)
    (rules : List PhilosopherRule) (g1 : PhilosopherGame) (rules1 : List PhilosopherRule) :
    Prop :=
  g1.turn = g.turn ∧ rules1.length = rules.length ∧
  ((∀ r ∈ rules, isMatch g r = false) → g1.board = g.board) ∧
  ∀ (i : Nat) (r : PhilosopherRule), rules[i]? = some r → ∃ r1, rules1[i]? = some r1 ∧
    (isMatch g r = true → noMatchBefore g rules i →
      r1 = ad.match_ r ∧ ∀ c : Fin 9, g1.board c = if c.val = r.result then pv else g.board c) ∧
    (evalRule g r = some 128 → noMatchBefore g rules i → r1 = ad.unmatch r) ∧
    (evalRule g r = some 129 → noMatchBefore g rules i → r1 = ad.invalid r) ∧
    (matchBefore g rules i → r1 = r)

/-- The one feedback call that a scanned rule without a match receives: `unmatch` when it
evaluates to UNMATCHED, `invalid` otherwise. -/
def passFeedback (adapter : GeneticRuleAdapter) (g : PhilosopherGame)
    (r : PhilosopherRule) : PhilosopherRule :=
  if evalRule g r = some 128 then adapter.unmatch r else adapter.invalid r

/-- Number of cells of the board that hold the value `p`. -/
def countCells (board : Cells) (p : Nat) : Nat :=
  ((List.finRange 9).filter fun i => board i = p).length

/-- Number of cells of the board that are not empty. -/
def occupiedCells (board : Cells) : Nat :=
  ((List.finRange 9).filter fun i => board i ≠ 0).length

/-- The state in which `simulateGame` enters its loop on an initialized game: `winner` is
0, the board is empty and the turn counter is 0. -/
def startState (g0 : PhilosopherGame) (p01 p02 : Philosopher) : GameState :=
  { winner := 0, g := initializeGame g0, p01 := p01, p02 := p02 }

/-- The states of a game from its start: the entry state followed by the state after
each turn. -/
def gameStates (s : GameState) : List GameState := s :: gameTrace 10 s

/-- Turn `k + 1` of the game from `s` was played and changed the board. -/
def placedMark (s : GameState) (k : Nat) : Bool :=
  match (gameStates s)[k]?, (gameStates s)[k + 1]? with
  | some x, some x1 => decide (x1.g.board ≠ x.g.board)
  | _, _ => false

/-- The state in which a run returned, if it did. -/
def Run.final : Run → Option GameState
  | Run.returned s => some s
  | _ => none

/-- Every rule of the agent has its target in [0,8]. -/
def targetsInRange (p : Philosopher) : Prop := ∀ r ∈ p.rules, r.result ≤ 8

instance (p : Philosopher) : Decidable (targetsInRange p) := by
  unfold targetsInRange; infer_instance

/-- The rule has its target in [0,8] and its nine pattern cells in {0,1,2,3}. -/
def wellFormed (r : PhilosopherRule) : Prop := r.result ≤ 8 ∧ ∀ i : Fin 9, r.value i ≤ 3

instance (r : PhilosopherRule) : Decidable (wellFormed r) := by
  unfold wellFormed; infer_instance

/-- The adapter leaves the target of every rule as it is, as the default adapter does. -/
def keepsTargets (ad : GeneticRuleAdapter) : Prop :=
  ∀ r : PhilosopherRule, (ad.match_ r).result = r.result ∧
    (ad.unmatch r).result = r.result ∧ (ad.invalid r).result = r.result

/-- The adapter changes nothing but the weight of a rule, as the default adapter does. -/
def weightOnly (ad : GeneticRuleAdapter) : Prop :=
  ∀ r : PhilosopherRule,
    ((ad.match_ r).value = r.value ∧ (ad.match_ r).result = r.result) ∧
    ((ad.unmatch r).value = r.value ∧ (ad.unmatch r).result = r.result) ∧
    ((ad.invalid r).value = r.value ∧ (ad.invalid r).result = r.result)

/-- The two rule lists have the same length and, index by index, the same pattern and
the same target; weights may differ. -/
def sameShape (rules rules1 : List PhilosopherRule) : Prop :=
  List.Forall₂ (fun r r1 => r1.value = r.value ∧ r1.result = r.result) rules rules1

/-- Two loop states that differ at most in the weights of the rules: equal `winner` and
game, rule lists of the same shape, adapters that change only weights. -/
def Agree (s s1 : GameState) : Prop :=
  s.winner = s1.winner ∧ s.g = s1.g ∧
  sameShape s.p01.rules s1.p01.rules ∧ sameShape s.p02.rules s1.p02.rules ∧
  weightOnly s.p01.adapter ∧ weightOnly s1.p01.adapter ∧
  weightOnly s.p02.adapter ∧ weightOnly s1.p02.adapter

/-- Two runs that end alike: both return, in states that agree, or both fault, or both
run out of fuel. -/
def agreeRun : Run → Run → Prop
  | Run.returned s, Run.returned s1 => Agree s s1
  | Run.fault, Run.fault => True
  | Run.outOfFuel, Run.outOfFuel => True
  | _, _ => False

/-- The text contains no tab, no newline and no carriage return, and it is short enough
for a rule line (twelve more bytes) to fit the buffer of the scanner, as a number written
by `fmt.Sprint` is: a `float64` takes at most 24 bytes. -/
def plainText (t : List Nat) : Prop :=
  (∀ c ∈ t, c ≠ 9 ∧ c ≠ 10 ∧ c ≠ 13) ∧ t.length + 12 < maxScanTokenSize

instance (t : List Nat) : Decidable (plainText t) := by
  unfold plainText; infer_instance

/-! ## Sample inputs -/

/-- Builds a nine-cell array from a list literal (cells that are absent read as 0). -/
def cellsOf (l : List Nat) : Cells := fun i => l.getD i.val 0

/-- The empty board. -/
def emptyBoard : Cells := fun _ => 0

/-- The pattern that is a wildcard in every cell. -/
def allWildcard : Cells := fun _ => 3

/-- The board `[1,1,0,2,2,0,0,0,0]` at turn 4. -/
def sampleGame : PhilosopherGame := ⟨cellsOf [1, 1, 0, 2, 2, 0, 0, 0, 0], 4⟩

/-- An agent whose four rules evaluate on `sampleGame` to UNMATCHED, INVALID, MATCH(2)
and MATCH(5). -/
def sampleAgent : Philosopher :=
  { name := "Nietzsche"
    rules := [⟨cellsOf [1, 1, 1, 1, 1, 1, 1, 1, 1], 0, 0⟩, ⟨allWildcard, 0, 0⟩,
      ⟨cellsOf [1, 1, 3, 3, 3, 3, 3, 3, 3], 2, 0⟩, ⟨allWildcard, 5, 0⟩]
    adapter := DefaultGeneticRuleAdapter }

/-- An agent whose two rules evaluate on `sampleGame` to UNMATCHED and INVALID. -/
def idleAgent : Philosopher :=
  { name := "Nietzsche"
    rules := [⟨cellsOf [1, 1, 1, 1, 1, 1, 1, 1, 1], 0, 0⟩, ⟨allWildcard, 0, 0⟩]
    adapter := DefaultGeneticRuleAdapter }

/-- An agent whose two rules place marks in cells 0 and 1 whatever the board holds. -/
def eagerAgent : Philosopher :=
  { name := "Nietzsche"
    rules := [⟨allWildcard, 0, 0⟩, ⟨allWildcard, 1, 0⟩]
    adapter := DefaultGeneticRuleAdapter }

/-- The agent `eagerAgent` with other weights. -/
def eagerAgentWeighted : Philosopher :=
  { name := "Heraclitus"
    rules := [⟨allWildcard, 0, 7⟩, ⟨allWildcard, 1, -250⟩]
    adapter := DefaultGeneticRuleAdapter }

/-- An agent without rules: it passes every turn. -/
def silentAgent : Philosopher :=
  { name := "Nietzsche", rules := [], adapter := DefaultGeneticRuleAdapter }

/-- A first player whose rules mark the cells 0, 2, 3, 7, 8 in this order of
preference. -/
def drawAgentOne : Philosopher :=
  { name := "Nietzsche"
    rules := [⟨allWildcard, 0, 0⟩, ⟨allWildcard, 2, 0⟩, ⟨allWildcard, 3, 0⟩,
      ⟨allWildcard, 7, 0⟩, ⟨allWildcard, 8, 0⟩]
    adapter := DefaultGeneticRuleAdapter }

/-- A second player whose rules mark the cells 1, 4, 5, 6 in this order of
preference. -/
def drawAgentTwo : Philosopher :=
  { name := "Nietzsche"
    rules := [⟨allWildcard, 1, 0⟩, ⟨allWildcard, 4, 0⟩, ⟨allWildcard, 5, 0⟩,
      ⟨allWildcard, 6, 0⟩]
    adapter := DefaultGeneticRuleAdapter }

/-- A first player whose rules mark the cells 0, 3, 6 in this order of preference. -/
def columnAgent : Philosopher :=
  { name := "Nietzsche"
    rules := [⟨allWildcard, 0, 0⟩, ⟨allWildcard, 3, 0⟩, ⟨allWildcard, 6, 0⟩]
    adapter := DefaultGeneticRuleAdapter }

/-- The bytes of an ASCII text, for writing file contents as string literals. -/
def ascii (s : String) : List Nat := s.toList.map Char.toNat

/-- A `float64` formatter for the sample files: the weight 0 is written as `0`. -/
def sprintZero : ℚ → List Nat := fun _ => [48]

/-- A `ParseFloat` for the sample files: it reads the text `0` as 0 and reports an error
on every other text, returning 0 as Go does on a syntax error. -/
def parseZero : List Nat → ℚ × Bool := fun t => (0, t != [48])

/-! ## Rule evaluation: lemmas -/

theorem patternMismatch_iff (board value : Cells) :
    patternMismatch board value = true ↔ ∃ i : Fin 9, value i ≠ 3 ∧ value i ≠ board i := by
  simp [patternMismatch, List.any_eq_true]

/-- C1: for a rule whose target is in [0,8], `evalRule` returns 128 exactly when some
non-wildcard pattern cell differs from the board; otherwise it returns 129 exactly when the
target cell is occupied; otherwise it returns the target, a value of at most 8.  On the
empty board the all-wildcard rule with target 4 returns 4. -/
theorem evalRule_spec (g : PhilosopherGame) (r : PhilosopherRule) (ht : r.result ≤ 8) :
    (evalRule g r = some 128 ↔ ∃ i : Fin 9, r.value i ≠ 3 ∧ r.value i ≠ g.board i) ∧
    ((¬ ∃ i : Fin 9, r.value i ≠ 3 ∧ r.value i ≠ g.board i) →
      (evalRule g r = some 129 ↔ g.board ⟨r.result, Nat.lt_succ_of_le ht⟩ ≠ 0) ∧
      (g.board ⟨r.result, Nat.lt_succ_of_le ht⟩ = 0 →
        evalRule g r = some r.result ∧ r.result ≤ 8)) ∧
    evalRule ⟨emptyBoard, 0⟩ ⟨allWildcard, 4, 0⟩ = some 4 := by
  have h9 : r.result < 9 := Nat.lt_succ_of_le ht
  refine ⟨?_, ?_, by decide⟩
  · rw [← patternMismatch_iff]
    unfold evalRule
    by_cases hm : patternMismatch g.board r.value = true
    · simp [hm]
    · simp only [hm, if_false, dif_pos h9, false_iff, Bool.false_eq_true]
      split
      · simp
      · simp; omega
  · intro hno
    rw [← patternMismatch_iff] at hno
    unfold evalRule
    simp only [hno, if_false, dif_pos h9, Bool.false_eq_true]
    refine ⟨?_, ?_⟩
    · by_cases hb : g.board ⟨r.result, h9⟩ = 0
      · simp [hb]; omega
      · simp [hb]
    · intro hb
      simp [hb]; omega

/-- Witness for C1 on the board `[1,1,0,2,2,0,0,0,0]` with the rule
`[1,1,3,3,3,3,3,3,3] → 2`. -/
theorem evalRule_spec_witness :
    evalRule ⟨cellsOf [1, 1, 0, 2, 2, 0, 0, 0, 0], 0⟩
      ⟨cellsOf [1, 1, 3, 3, 3, 3, 3, 3, 3], 2, 0⟩ = some 2 :=
  (((evalRule_spec ⟨cellsOf [1, 1, 0, 2, 2, 0, 0, 0, 0], 0⟩
      ⟨cellsOf [1, 1, 3, 3, 3, 3, 3, 3, 3], 2, 0⟩ (by decide)).2.1
    (by decide)).2 (by decide)).1

/-! ## Winner evaluation: lemmas -/

theorem evalWinnerLoop_eq_zero (board : Cells) (ls : List (Fin 9 × Fin 9 × Fin 9)) :
    evalWinnerLoop board ls = 0 ↔
      ∀ l ∈ ls, ¬ (board l.1 ≠ 0 ∧ board l.1 = board l.2.1 ∧ board l.1 = board l.2.2) := by
  induction ls with
  | nil => simp [evalWinnerLoop]
  | cons l rest ih =>
    obtain ⟨a, b, c⟩ := l
    simp only [evalWinnerLoop, List.forall_mem_cons]
    by_cases h : board a > 0 ∧ board a = board b ∧ board a = board c
    · rw [if_pos h]
      constructor
      · intro h0; omega
      · intro hall; exact absurd ⟨by omega, h.2.1, h.2.2⟩ hall.1
    · rw [if_neg h, ih]
      constructor
      · intro hr; exact ⟨fun hc => h ⟨by omega, hc.2.1, hc.2.2⟩, hr⟩
      · intro hall; exact hall.2

theorem evalWinnerLoop_holds (board : Cells) (ls : List (Fin 9 × Fin 9 × Fin 9)) (p : Nat)
    (hp : p ≠ 0) (h : evalWinnerLoop board ls = p) :
    ∃ l ∈ ls, holds board p l.1 l.2.1 l.2.2 := by
  induction ls with
  | nil => exact absurd h.symm (by simpa [evalWinnerLoop] using hp)
  | cons l rest ih =>
    obtain ⟨a, b, c⟩ := l
    simp only [evalWinnerLoop] at h
    by_cases hl : board a > 0 ∧ board a = board b ∧ board a = board c
    · rw [if_pos hl] at h
      exact ⟨(a, b, c), List.mem_cons_self _ _, h, by rw [← hl.2.1]; exact h,
        by rw [← hl.2.2]; exact h⟩
    · rw [if_neg hl] at h
      obtain ⟨l, hmem, hh⟩ := ih h
      exact ⟨l, List.mem_cons_of_mem _ hmem, hh⟩

theorem hasLine_iff_mem (board : Cells) (p : Nat) :
    hasLine board p ↔ ∃ l ∈ winLines, holds board p l.1 l.2.1 l.2.2 := by
  simp [hasLine, winLines]

/-- C2: `evalWinner` returns a non-zero value exactly when one of the eight lines (rows
0-1-2, 3-4-5, 6-7-8, columns 0-3-6, 1-4-7, 2-5-8, diagonals 0-4-8, 2-4-6) holds three equal
non-empty cells, and the value it then returns is a player holding a complete line. -/
theorem evalWinner_spec (g : PhilosopherGame) :
    (evalWinner g ≠ 0 ↔ ∃ p, p ≠ 0 ∧ hasLine g.board p) ∧
    (evalWinner g ≠ 0 → hasLine g.board (evalWinner g)) := by
  constructor
  · constructor
    · intro h
      exact ⟨evalWinner g, h,
        (hasLine_iff_mem _ _).2 (evalWinnerLoop_holds g.board winLines _ h rfl)⟩
    · rintro ⟨p, hp, hl⟩ h0
      obtain ⟨l, hmem, h1, h2, h3⟩ := (hasLine_iff_mem _ _).1 hl
      exact (evalWinnerLoop_eq_zero g.board winLines).1 h0 l hmem
        ⟨by rw [h1]; exact hp, by rw [h1, h2], by rw [h1, h3]⟩
  · intro h
    exact (hasLine_iff_mem _ _).2 (evalWinnerLoop_holds g.board winLines _ h rfl)

/-- Witness for C2: on `[1,1,1,2,2,0,0,0,0]` the winner is player 1, who holds the top
row. -/
theorem evalWinner_spec_witness :
    evalWinner ⟨cellsOf [1, 1, 1, 2, 2, 0, 0, 0, 0], 5⟩ = 1 ∧
    hasLine (cellsOf [1, 1, 1, 2, 2, 0, 0, 0, 0])
      (evalWinner ⟨cellsOf [1, 1, 1, 2, 2, 0, 0, 0, 0], 5⟩) :=
  ⟨by decide, (evalWinner_spec ⟨cellsOf [1, 1, 1, 2, 2, 0, 0, 0, 0], 5⟩).2 (by decide)⟩

/-! ## One move: lemmas -/

theorem isMatch_iff (g : PhilosopherGame) (r : PhilosopherRule) :
    isMatch g r = true ↔ ∃ t, t ≤ 8 ∧ evalRule g r = some t := by
  unfold isMatch
  cases h : evalRule g r with
  | none => simp
  | some t => simp

theorem evalRule_cases (g : PhilosopherGame) (r : PhilosopherRule) (ht : r.result ≤ 8) :
    evalRule g r = some 128 ∨ evalRule g r = some 129 ∨ evalRule g r = some r.result := by
  unfold evalRule
  have h9 : r.result < 9 := Nat.lt_succ_of_le ht
  by_cases hm : patternMismatch g.board r.value = true
  · simp [hm]
  · by_cases hb : g.board ⟨r.result, h9⟩ = 0
    · simp [hm, h9, hb]
    · simp [hm, h9, hb]

theorem evalRule_match_result (g : PhilosopherGame) (r : PhilosopherRule) (t : Nat)
    (ht : t ≤ 8) (h : evalRule g r = some t) :
    t = r.result ∧ ∃ h9 : r.result < 9, g.board ⟨r.result, h9⟩ = 0 := by
  unfold evalRule at h
  by_cases hm : patternMismatch g.board r.value = true
  · simp [hm] at h; omega
  · by_cases h9 : r.result < 9
    · by_cases hb : g.board ⟨r.result, h9⟩ = 0
      · simp [hm, h9, hb] at h
        exact ⟨h.symm, h9, hb⟩
      · simp [hm, h9, hb] at h; omega
    · simp [hm, h9] at h

theorem simulateMoveLoop_spec (ad : GeneticRuleAdapter) (pv : Nat) (g : PhilosopherGame)
    (rules : List PhilosopherRule) (hr : ∀ r ∈ rules, r.result ≤ 8) :
    ∃ g1 rules1, simulateMoveLoop ad pv g rules = some (g1, rules1) ∧
      MoveEffect ad pv g rules g1 rules1 := by
  induction rules with
  | nil =>
    exact ⟨g, [], rfl, rfl, rfl, fun _ => rfl, fun i r h => by simp at h⟩
  | cons r0 rest ih =>
    have h0 : r0.result ≤ 8 := hr r0 (List.mem_cons_self _ _)
    obtain ⟨g1, rules1, hloop, hturn, hlen, hboard, hidx⟩ :=
      ih (fun r hmem => hr r (List.mem_cons_of_mem _ hmem))
    have hnomatch : ∀ v, (v = 128 ∨ v = 129) → evalRule g r0 = some v →
        isMatch g r0 = false := by
      intro v hv he
      simp only [isMatch, he]
      rcases hv with rfl | rfl <;> decide
    -- the tail of the scan, shared by the two cases without a match
    have tail : ∀ fb : PhilosopherRule, isMatch g r0 = false →
        (evalRule g r0 = some 128 → fb = ad.unmatch r0) →
        (evalRule g r0 = some 129 → fb = ad.invalid r0) →
        simulateMoveLoop ad pv g (r0 :: rest) = some (g1, fb :: rules1) →
        ∃ g1 rules1, simulateMoveLoop ad pv g (r0 :: rest) = some (g1, rules1) ∧
          MoveEffect ad pv g (r0 :: rest) g1 rules1 := by
      intro fb hnm h128 h129 hrun
      refine ⟨g1, fb :: rules1, hrun, hturn, by simp [hlen], ?_, ?_⟩
      · intro hall
        exact hboard (fun r hmem => hall r (List.mem_cons_of_mem _ hmem))
      · intro i r hget
        cases i with
        | zero =>
          simp only [List.getElem?_cons_zero, Option.some.injEq] at hget
          subst hget
          refine ⟨fb, by simp, ?_, ?_, ?_, ?_⟩
          · intro hm; rw [hnm] at hm; exact absurd hm (by decide)
          · intro he _; exact h128 he
          · intro he _; exact h129 he
          · rintro ⟨j, x, hj, _⟩; omega
        | succ k =>
          simp only [List.getElem?_cons_succ] at hget
          obtain ⟨r1, hr1, hA, hB, hC, hD⟩ := hidx k r hget
          have shift : noMatchBefore g (r0 :: rest) (k + 1) → noMatchBefore g rest k := by
            intro hall j x hj hx
            exact hall (j + 1) x (by omega) (by simpa using hx)
          refine ⟨r1, by simpa using hr1, ?_, ?_, ?_, ?_⟩
          · intro hm hall; exact hA hm (shift hall)
          · intro he hall; exact hB he (shift hall)
          · intro he hall; exact hC he (shift hall)
          · rintro ⟨j, x, hj, hx, hm⟩
            cases j with
            | zero =>
              simp only [List.getElem?_cons_zero, Option.some.injEq] at hx
              subst hx
              rw [hnm] at hm; exact absurd hm (by decide)
            | succ j1 =>
              simp only [List.getElem?_cons_succ] at hx
              exact hD ⟨j1, x, by omega, hx, hm⟩
    rcases evalRule_cases g r0 h0 with he | he | he
    · apply tail (ad.unmatch r0) (hnomatch 128 (Or.inl rfl) he) (fun _ => rfl)
        (fun h => by rw [he] at h; exact absurd h (by decide))
      simp [simulateMoveLoop, he, hloop]
    · apply tail (ad.invalid r0) (hnomatch 129 (Or.inr rfl) he)
        (fun h => by rw [he] at h; exact absurd h (by decide)) (fun _ => rfl)
      simp [simulateMoveLoop, he, hloop]
    · have hm0 : isMatch g r0 = true := (isMatch_iff g r0).2 ⟨_, h0, he⟩
      refine ⟨⟨Function.update g.board ⟨r0.result, Nat.lt_succ_of_le h0⟩ pv, g.turn⟩,
        ad.match_ r0 :: rest, by simp [simulateMoveLoop, he, h0], rfl, by simp, ?_, ?_⟩
      · intro hall
        rw [hall r0 (List.mem_cons_self _ _)] at hm0
        exact absurd hm0 (by decide)
      · intro i r hget
        cases i with
        | zero =>
          simp only [List.getElem?_cons_zero, Option.some.injEq] at hget
          subst hget
          refine ⟨ad.match_ r0, by simp, ?_, ?_, ?_, ?_⟩
          · intro _ _
            refine ⟨rfl, fun c => ?_⟩
            by_cases hc : c.val = r0.result
            · have hc1 : c = ⟨r0.result, Nat.lt_succ_of_le h0⟩ := Fin.ext hc
              rw [if_pos hc, hc1]
              exact Function.update_same _ _ _
            · have : c ≠ ⟨r0.result, Nat.lt_succ_of_le h0⟩ := fun h => hc (by rw [h])
              simp [Function.update_noteq this, hc]
          · intro h; rw [he] at h; simp at h; omega
          · intro h; rw [he] at h; simp at h; omega
          · rintro ⟨j, x, hj, _⟩; omega
        | succ k =>
          simp only [List.getElem?_cons_succ] at hget
          refine ⟨r, by simpa using hget, ?_, ?_, ?_, ?_⟩
          · intro _ hall
            have := hall 0 r0 (by omega) (by simp)
            rw [hm0] at this; exact absurd this (by decide)
          · intro _ hall
            have := hall 0 r0 (by omega) (by simp)
            rw [hm0] at this; exact absurd this (by decide)
          · intro _ hall
            have := hall 0 r0 (by omega) (by simp)
            rw [hm0] at this; exact absurd this (by decide)
          · intro _; rfl

theorem simulateMove_spec (g : PhilosopherGame) (p : Philosopher) (pv : Nat)
    (hr : ∀ r ∈ p.rules, r.result ≤ 8) :
    ∃ g1 p1, simulateMove g p pv = some (g1, p1) ∧ p1.name = p.name ∧
      p1.adapter = p.adapter ∧ MoveEffect p.adapter pv g p.rules g1 p1.rules := by
  obtain ⟨g1, rules1, hloop, heff⟩ := simulateMoveLoop_spec p.adapter pv g p.rules hr
  exact ⟨g1, { p with rules := rules1 }, by simp [simulateMove, hloop], rfl, rfl, heff⟩

theorem exists_first_match (g : PhilosopherGame) (rules : List PhilosopherRule)
    (h : ∃ r ∈ rules, isMatch g r = true) :
    ∃ (i : Nat) (r : PhilosopherRule), rules[i]? = some r ∧ isMatch g r = true ∧
      noMatchBefore g rules i := by
  induction rules with
  | nil => simp at h
  | cons r0 rest ih =>
    by_cases h0 : isMatch g r0 = true
    · exact ⟨0, r0, by simp, h0, fun j x hj _ => by omega⟩
    · have hrest : ∃ r ∈ rest, isMatch g r = true := by
        obtain ⟨r, hmem, hm⟩ := h
        rcases List.mem_cons.1 hmem with rfl | hmem
        · exact absurd hm h0
        · exact ⟨r, hmem, hm⟩
      obtain ⟨i, r, hget, hm, hbefore⟩ := ih hrest
      refine ⟨i + 1, r, by simpa using hget, hm, ?_⟩
      intro j x hj hx
      cases j with
      | zero =>
        simp only [List.getElem?_cons_zero, Option.some.injEq] at hx
        subst hx; simpa using h0
      | succ j1 =>
        simp only [List.getElem?_cons_succ] at hx
        exact hbefore j1 x (by omega) hx

/-- C3 (amended): for an agent with the default adapter whose rules have targets in
[0,8], one call of `simulateMove` returns, keeps the number of rules, and changes the rule
at every index by exactly one weight update: +1 on the lowest-index rule that evaluates to
MATCH on the input board, -1 on a rule reached by the scan that evaluates to UNMATCHED,
-100 on a rule reached by the scan that evaluates to INVALID, and nothing on a rule after
the first match. -/
theorem simulateMove_weights (g : PhilosopherGame) (p : Philosopher) (pv : Nat)
    (had : p.adapter = DefaultGeneticRuleAdapter) (hr : ∀ r ∈ p.rules, r.result ≤ 8) :
    ∃ g1 p1, simulateMove g p pv = some (g1, p1) ∧ p1.rules.length = p.rules.length ∧
      ∀ (i : Nat) (r : PhilosopherRule), p.rules[i]? = some r →
        ∃ r1, p1.rules[i]? = some r1 ∧
          (isMatch g r = true → noMatchBefore g p.rules i →
            r1 = { r with w := r.w + 1 }) ∧
          (evalRule g r = some 128 → noMatchBefore g p.rules i →
            r1 = { r with w := r.w - 1 }) ∧
          (evalRule g r = some 129 → noMatchBefore g p.rules i →
            r1 = { r with w := r.w - 100 }) ∧
          (matchBefore g p.rules i → r1 = r) := by
  obtain ⟨g1, p1, hrun, _, _, _, hlen, _, hidx⟩ := simulateMove_spec g p pv hr
  refine ⟨g1, p1, hrun, hlen, fun i r hget => ?_⟩
  obtain ⟨r1, hr1, hA, hB, hC, hD⟩ := hidx i r hget
  rw [had] at hA hB hC
  exact ⟨r1, hr1, fun hm hb => (hA hm hb).1, hB, hC, hD⟩

/-- Witness for C3: the four rules of `sampleAgent` on `sampleGame`. -/
theorem simulateMove_weights_witness :
    ∃ g1 p1, simulateMove sampleGame sampleAgent 1 = some (g1, p1) ∧
      p1.rules.length = sampleAgent.rules.length ∧
      ∀ (i : Nat) (r : PhilosopherRule), sampleAgent.rules[i]? = some r →
        ∃ r1, p1.rules[i]? = some r1 ∧
          (isMatch sampleGame r = true → noMatchBefore sampleGame sampleAgent.rules i →
            r1 = { r with w := r.w + 1 }) ∧
          (evalRule sampleGame r = some 128 → noMatchBefore sampleGame sampleAgent.rules i →
            r1 = { r with w := r.w - 1 }) ∧
          (evalRule sampleGame r = some 129 → noMatchBefore sampleGame sampleAgent.rules i →
            r1 = { r with w := r.w - 100 }) ∧
          (matchBefore sampleGame sampleAgent.rules i → r1 = r) :=
  simulateMove_weights sampleGame sampleAgent 1 rfl (by decide)

/-- Counterexample to C3 as stated for every agent: with the rules `[3…3 → 9, 1…1 → 0]`
on the empty board no rule matches and the second rule evaluates to UNMATCHED, yet the
call faults on the first rule (target 9) and the second rule is never reached. -/
theorem simulateMove_weights_fault :
    evalRule ⟨emptyBoard, 0⟩ ⟨cellsOf [1, 1, 1, 1, 1, 1, 1, 1, 1], 0, 0⟩ = some 128 ∧
    isMatch ⟨emptyBoard, 0⟩ ⟨allWildcard, 9, 0⟩ = false ∧
    simulateMove ⟨emptyBoard, 0⟩
      ⟨"Nietzsche", [⟨allWildcard, 9, 0⟩, ⟨cellsOf [1, 1, 1, 1, 1, 1, 1, 1, 1], 0, 0⟩],
        DefaultGeneticRuleAdapter⟩ 1 = none :=
  ⟨by decide, by decide, by rfl⟩

/-- C4 (amended): first match wins.  For an agent whose rules have targets in [0,8], if
some rule evaluates to MATCH on the board then `simulateMove` returns, and with `r` the
lowest-index matching rule the resulting board is the input board with exactly the cell
`r.result` set to the player mark, rule `r` receives the match feedback, and every rule
at a later index, matching or not, is left as it was (so no later rule fires or receives
feedback in that call). -/
theorem simulateMove_first_match (g : PhilosopherGame) (p : Philosopher) (pv : Nat)
    (hr : ∀ r ∈ p.rules, r.result ≤ 8) (hm : ∃ r ∈ p.rules, isMatch g r = true) :
    ∃ g1 p1 i r, simulateMove g p pv = some (g1, p1) ∧
      p.rules[i]? = some r ∧ isMatch g r = true ∧ noMatchBefore g p.rules i ∧
      g1.turn = g.turn ∧
      (∀ c : Fin 9, g1.board c = if c.val = r.result then pv else g.board c) ∧
      p1.rules[i]? = some (p.adapter.match_ r) ∧
      ∀ (j : Nat) (x : PhilosopherRule), i < j → p.rules[j]? = some x →
        p1.rules[j]? = some x := by
  obtain ⟨g1, p1, hrun, _, _, hturn, _, _, hidx⟩ := simulateMove_spec g p pv hr
  obtain ⟨i, r, hget, hmi, hfirst⟩ := exists_first_match g p.rules hm
  obtain ⟨r1, hr1, hA, _, _, _⟩ := hidx i r hget
  obtain ⟨hr1eq, hb⟩ := hA hmi hfirst
  refine ⟨g1, p1, i, r, hrun, hget, hmi, hfirst, hturn, hb, by rw [hr1, hr1eq], ?_⟩
  intro j x hij hx
  obtain ⟨x1, hx1, _, _, _, hD⟩ := hidx j x hx
  rw [hx1, hD ⟨i, r, hij, hget, hmi⟩]

/-- Witness for C4: on `sampleGame` the third rule of `sampleAgent` is the first match
and the fourth, which also matches, is not touched. -/
theorem simulateMove_first_match_witness :
    ∃ g1 p1 i r, simulateMove sampleGame sampleAgent 1 = some (g1, p1) ∧
      sampleAgent.rules[i]? = some r ∧ isMatch sampleGame r = true ∧
      noMatchBefore sampleGame sampleAgent.rules i ∧
      g1.turn = sampleGame.turn ∧
      (∀ c : Fin 9, g1.board c = if c.val = r.result then 1 else sampleGame.board c) ∧
      p1.rules[i]? = some (sampleAgent.adapter.match_ r) ∧
      ∀ (j : Nat) (x : PhilosopherRule), i < j → sampleAgent.rules[j]? = some x →
        p1.rules[j]? = some x :=
  simulateMove_first_match sampleGame sampleAgent 1 (by decide)
    ⟨⟨allWildcard, 5, 0⟩, by simp [sampleAgent], by decide⟩

/-- Counterexample to C4 as stated for every agent: with the rules `[3…3 → 9, 3…3 → 4]`
on the empty board the second rule evaluates to MATCH, yet the call faults on the first
rule (target 9) and the mark is never written. -/
theorem simulateMove_first_match_fault :
    isMatch ⟨emptyBoard, 0⟩ ⟨allWildcard, 4, 0⟩ = true ∧
    simulateMove ⟨emptyBoard, 0⟩
      ⟨"Nietzsche", [⟨allWildcard, 9, 0⟩, ⟨allWildcard, 4, 0⟩],
        DefaultGeneticRuleAdapter⟩ 1 = none :=
  ⟨by decide, by rfl⟩

/-- C5 (amended): for an agent whose rules have targets in [0,8] (the empty rule list
included), if no rule evaluates to MATCH on the board then `simulateMove` returns without
a fault, the game (all nine cells and the turn counter) is unchanged, every rule
evaluates to UNMATCHED or INVALID, and every rule has received exactly one feedback call:
`unmatch` when it evaluates to UNMATCHED and `invalid` otherwise. -/
theorem simulateMove_no_match (g : PhilosopherGame) (p : Philosopher) (pv : Nat)
    (hr : ∀ r ∈ p.rules, r.result ≤ 8) (hno : ∀ r ∈ p.rules, isMatch g r = false) :
    simulateMove g p pv =
      some (g, ⟨p.name, p.rules.map (passFeedback p.adapter g), p.adapter⟩) ∧
    ∀ r ∈ p.rules, evalRule g r = some 128 ∨ evalRule g r = some 129 := by
  have hcase : ∀ r ∈ p.rules, evalRule g r = some 128 ∨ evalRule g r = some 129 := by
    intro r hmem
    rcases evalRule_cases g r (hr r hmem) with h | h | h
    · exact Or.inl h
    · exact Or.inr h
    · have := (isMatch_iff g r).2 ⟨_, hr r hmem, h⟩
      rw [hno r hmem] at this
      exact absurd this (by decide)
  refine ⟨?_, hcase⟩
  obtain ⟨g1, p1, hrun, hname, had, hturn, hlen, hboard, hidx⟩ := simulateMove_spec g p pv hr
  have hbefore : ∀ i, noMatchBefore g p.rules i := fun i j x _ hx =>
    hno x (List.getElem?_mem hx)
  have hg : g1 = g := by
    cases g1; cases g
    simp only [PhilosopherGame.mk.injEq]
    exact ⟨hboard hno, hturn⟩
  have hrules : p1.rules = p.rules.map (passFeedback p.adapter g) := by
    apply List.ext_getElem?
    intro i
    cases hget : p.rules[i]? with
    | none =>
      have h1 : p.rules.length ≤ i := List.getElem?_eq_none_iff.1 hget
      rw [List.getElem?_map, hget, List.getElem?_eq_none_iff.2 (by omega)]
      rfl
    | some r =>
      obtain ⟨r1, hr1, _, hB, hC, _⟩ := hidx i r hget
      rw [List.getElem?_map, hget, hr1]
      simp only [Option.map_some', Option.some.injEq, passFeedback]
      rcases hcase r (List.getElem?_mem hget) with h | h
      · rw [if_pos h]; exact hB h (hbefore i)
      · rw [if_neg (by rw [h]; decide)]; exact hC h (hbefore i)
  rw [hrun, hg]
  cases p1
  simp only [Option.some.injEq, Prod.mk.injEq, true_and, Philosopher.mk.injEq]
  exact ⟨hname, hrules, had⟩

/-- Witness for C5: neither rule of `idleAgent` matches `sampleGame`. -/
theorem simulateMove_no_match_witness :
    simulateMove sampleGame idleAgent 2 =
      some (sampleGame, ⟨idleAgent.name,
        idleAgent.rules.map (passFeedback idleAgent.adapter sampleGame), idleAgent.adapter⟩) ∧
    ∀ r ∈ idleAgent.rules, evalRule sampleGame r = some 128 ∨ evalRule sampleGame r = some 129 :=
  simulateMove_no_match sampleGame idleAgent 2 (by decide) (by decide)

/-- Counterexample to C5 as stated for every agent: the single rule `3…3 → 9` does not
evaluate to MATCH on the empty board, and the call faults instead of passing the turn. -/
theorem simulateMove_no_match_fault :
    isMatch ⟨emptyBoard, 0⟩ ⟨allWildcard, 9, 0⟩ = false ∧
    evalRule ⟨emptyBoard, 0⟩ ⟨allWildcard, 9, 0⟩ = none ∧
    simulateMove ⟨emptyBoard, 0⟩
      ⟨"Nietzsche", [⟨allWildcard, 9, 0⟩], DefaultGeneticRuleAdapter⟩ 1 = none :=
  ⟨by decide, by decide, by rfl⟩

theorem length_filter_eq_sum {α : Type} (q : α → Prop) [DecidablePred q] (l : List α) :
    (l.filter fun i => q i).length = (l.map fun i => if q i then 1 else 0).sum := by
  induction l with
  | nil => rfl
  | cons a t ih =>
    by_cases h : q a
    · simp [List.filter_cons, h, ih]; omega
    · simp [List.filter_cons, h, ih]

theorem countCells_eq_sum (board : Cells) (p : Nat) :
    countCells board p = ∑ i : Fin 9, if board i = p then 1 else 0 := by
  unfold countCells
  rw [length_filter_eq_sum, Fin.sum_univ_def]

theorem countCells_update (board : Cells) (c : Fin 9) (v p : Nat) :
    countCells (Function.update board c v) p + (if board c = p then 1 else 0) =
      countCells board p + (if v = p then 1 else 0) := by
  rw [countCells_eq_sum, countCells_eq_sum,
    ← Finset.add_sum_erase Finset.univ _ (Finset.mem_univ c),
    ← Finset.add_sum_erase Finset.univ (fun i => if board i = p then 1 else 0)
      (Finset.mem_univ c)]
  have hrest : ∑ i ∈ Finset.univ.erase c, (if Function.update board c v i = p then 1 else 0) =
      ∑ i ∈ Finset.univ.erase c, (if board i = p then 1 else 0) := by
    apply Finset.sum_congr rfl
    intro i hi
    rw [Function.update_noteq (Finset.ne_of_mem_erase hi)]
  rw [hrest, Function.update_same]
  omega

theorem simulateMoveLoop_board (ad : GeneticRuleAdapter) (pv : Nat) (g : PhilosopherGame)
    (rules : List PhilosopherRule) (g1 : PhilosopherGame) (rules1 : List PhilosopherRule)
    (h : simulateMoveLoop ad pv g rules = some (g1, rules1)) :
    g1.turn = g.turn ∧
      (g1.board = g.board ∨
        ∃ c : Fin 9, g.board c = 0 ∧ g1.board = Function.update g.board c pv) := by
  induction rules generalizing rules1 with
  | nil =>
    simp only [simulateMoveLoop, Option.some.injEq, Prod.mk.injEq] at h
    rw [← h.1]; exact ⟨rfl, Or.inl rfl⟩
  | cons r0 rest ih =>
    simp only [simulateMoveLoop] at h
    cases he : evalRule g r0 with
    | none => simp [he] at h
    | some t =>
      rw [he] at h
      simp only at h
      by_cases ht : t ≤ 8
      · rw [dif_pos ht] at h
        simp only [Option.some.injEq, Prod.mk.injEq] at h
        obtain ⟨hres, h9, hb⟩ := evalRule_match_result g r0 t ht he
        rw [← h.1]
        refine ⟨rfl, Or.inr ⟨⟨t, Nat.lt_succ_of_le ht⟩, ?_, rfl⟩⟩
        have : (⟨t, Nat.lt_succ_of_le ht⟩ : Fin 9) = ⟨r0.result, h9⟩ := Fin.ext hres
        rw [this]; exact hb
      · rw [dif_neg ht] at h
        cases hrest : simulateMoveLoop ad pv g rest with
        | none => simp [hrest] at h
        | some out =>
          obtain ⟨g2, rules2⟩ := out
          have hg : g1 = g2 := by
            rw [hrest] at h
            split at h
            · simp at h; exact h.1.symm
            · split at h
              · simp at h; exact h.1.symm
              · simp at h; exact h.1.symm
          subst hg
          exact ih rules2 hrest

/-! ## One game: lemmas -/

theorem finRange9 : List.finRange 9 = [0, 1, 2, 3, 4, 5, 6, 7, 8] := by decide

/-- After `initializeGame` every cell is 0 and the turn counter is 0, whatever the game
held before. -/
theorem initializeGame_eq (g : PhilosopherGame) :
    initializeGame g = ⟨fun _ => 0, 0⟩ := by
  unfold initializeGame
  rw [finRange9]
  simp only [List.foldl_cons, List.foldl_nil, PhilosopherGame.mk.injEq, and_true]
  funext c
  fin_cases c <;> simp [Function.update]

theorem startState_eq (g0 : PhilosopherGame) (p01 p02 : Philosopher) :
    startState g0 p01 p02 = ⟨0, ⟨fun _ => 0, 0⟩, p01, p02⟩ := by
  unfold startState
  rw [initializeGame_eq]

theorem simulateMove_board (g : PhilosopherGame) (p : Philosopher) (pv : Nat)
    (g1 : PhilosopherGame) (p1 : Philosopher) (h : simulateMove g p pv = some (g1, p1)) :
    g1.turn = g.turn ∧
      (g1.board = g.board ∨
        ∃ c : Fin 9, g.board c = 0 ∧ g1.board = Function.update g.board c pv) := by
  unfold simulateMove at h
  cases hloop : simulateMoveLoop p.adapter pv g p.rules with
  | none => simp [hloop] at h
  | some out =>
    obtain ⟨g2, rules2⟩ := out
    rw [hloop] at h
    simp only [Option.map_some', Option.some.injEq, Prod.mk.injEq] at h
    rw [← h.1]
    exact simulateMoveLoop_board p.adapter pv g p.rules g2 rules2 hloop

theorem turnBody_cases (s s1 : GameState) (h : turnBody s = some s1) :
    s1.winner = evalWinner s1.g ∧
    (((s.g.turn + 1) % 256 % 2 = 1 ∧
        simulateMove ⟨s.g.board, (s.g.turn + 1) % 256⟩ s.p01 1 = some (s1.g, s1.p01) ∧
        s1.p02 = s.p02) ∨
      ((s.g.turn + 1) % 256 % 2 = 0 ∧
        simulateMove ⟨s.g.board, (s.g.turn + 1) % 256⟩ s.p02 2 = some (s1.g, s1.p02) ∧
        s1.p01 = s.p01)) := by
  unfold turnBody at h
  simp only at h
  by_cases hodd : (s.g.turn + 1) % 256 % 2 = 1
  · rw [if_pos hodd] at h
    cases hm : simulateMove ⟨s.g.board, (s.g.turn + 1) % 256⟩ s.p01 1 with
    | none => simp [hm] at h
    | some out =>
      obtain ⟨g2, p⟩ := out
      rw [hm] at h
      simp only [Option.some.injEq] at h
      subst h
      exact ⟨rfl, Or.inl ⟨hodd, rfl, rfl⟩⟩
  · rw [if_neg hodd] at h
    cases hm : simulateMove ⟨s.g.board, (s.g.turn + 1) % 256⟩ s.p02 2 with
    | none => simp [hm] at h
    | some out =>
      obtain ⟨g2, p⟩ := out
      rw [hm] at h
      simp only [Option.some.injEq] at h
      subst h
      exact ⟨rfl, Or.inr ⟨by omega, rfl, rfl⟩⟩

theorem loopGuard_iff (s : GameState) :
    loopGuard s = true ↔ (s.winner = 0 ∨ s.winner = 3) ∧ s.g.turn < 10 := by
  simp [loopGuard]

theorem gameTrace_length_le (n : Nat) (s : GameState) : (gameTrace n s).length ≤ n := by
  induction n generalizing s with
  | zero => simp [gameTrace]
  | succ n ih =>
    unfold gameTrace
    split
    · split
      · simp
      · simp only [List.length_cons]; exact Nat.succ_le_succ (ih _)
    · simp

/-- Consecutive states of the trace are related by one execution of the loop body, entered
with the loop condition true. -/
theorem gameTrace_step (n : Nat) (s : GameState) (k : Nat) (x x1 : GameState)
    (hx : (s :: gameTrace n s)[k]? = some x) (hx1 : (s :: gameTrace n s)[k + 1]? = some x1) :
    loopGuard x = true ∧ turnBody x = some x1 := by
  induction n generalizing s k with
  | zero =>
    simp only [gameTrace, List.getElem?_cons_succ] at hx1
    simp at hx1
  | succ n ih =>
    unfold gameTrace at hx hx1
    by_cases hg : loopGuard s = true
    · rw [if_pos hg] at hx hx1
      cases hb : turnBody s with
      | none => rw [hb] at hx1; simp at hx1
      | some s1 =>
        rw [hb] at hx hx1
        simp only at hx hx1
        cases k with
        | zero =>
          simp only [List.getElem?_cons_zero, Option.some.injEq, List.getElem?_cons_succ]
            at hx hx1
          subst hx; subst hx1
          exact ⟨hg, hb⟩
        | succ k1 =>
          simp only [List.getElem?_cons_succ] at hx hx1
          exact ih s1 k1 hx (by simpa using hx1)
    · rw [if_neg hg] at hx1
      simp at hx1

/-- While the iteration budget lasts, a state of the trace with the loop condition true
and a loop body that returns has a successor in the trace. -/
theorem gameTrace_next (n : Nat) (s : GameState) (k : Nat) (x x1 : GameState) (hk : k < n)
    (hx : (s :: gameTrace n s)[k]? = some x) (hg : loopGuard x = true)
    (hb : turnBody x = some x1) : (s :: gameTrace n s)[k + 1]? = some x1 := by
  induction n generalizing s k with
  | zero => omega
  | succ n ih =>
    cases k with
    | zero =>
      simp only [List.getElem?_cons_zero, Option.some.injEq] at hx
      subst hx
      simp [gameTrace, hg, hb]
    | succ k1 =>
      unfold gameTrace at hx ⊢
      by_cases hgs : loopGuard s = true
      · rw [if_pos hgs] at hx ⊢
        cases hbs : turnBody s with
        | none => rw [hbs] at hx; simp at hx
        | some s1 =>
          rw [hbs] at hx
          simp only [List.getElem?_cons_succ] at hx ⊢
          have hnext := ih s1 k1 (by omega) hx
          simpa using hnext
      · rw [if_neg hgs] at hx
        simp at hx

/-- Induction along the trace: a property of the start state that every executed turn
preserves holds in every state of the trace. -/
theorem gameTrace_induction (P : Nat → GameState → Prop) (n : Nat) (s : GameState)
    (h0 : P 0 s)
    (hstep : ∀ (k : Nat) (x x1 : GameState), P k x → loopGuard x = true →
      turnBody x = some x1 → P (k + 1) x1)
    (k : Nat) (x : GameState) (hx : (s :: gameTrace n s)[k]? = some x) : P k x := by
  induction k generalizing x with
  | zero =>
    simp only [List.getElem?_cons_zero, Option.some.injEq] at hx
    subst hx; exact h0
  | succ k1 ih =>
    have hlt : k1 + 1 < (s :: gameTrace n s).length := by
      rcases Nat.lt_or_ge (k1 + 1) (s :: gameTrace n s).length with h | h
      · exact h
      · rw [List.getElem?_eq_none_iff.2 h] at hx; simp at hx
    have hprev : (s :: gameTrace n s)[k1]? = some ((s :: gameTrace n s)[k1]) :=
      List.getElem?_eq_getElem (by omega)
    obtain ⟨hg, hb⟩ := gameTrace_step n s k1 _ x hprev hx
    exact hstep k1 _ x (ih _ hprev) hg hb

theorem turnBody_turn (s s1 : GameState) (h : turnBody s = some s1) :
    s1.g.turn = (s.g.turn + 1) % 256 := by
  obtain ⟨_, hc | hc⟩ := turnBody_cases s s1 h
  · exact (simulateMove_board _ _ _ _ _ hc.2.1).1
  · exact (simulateMove_board _ _ _ _ _ hc.2.1).1

theorem gameStates_turn (s : GameState) (k : Nat) (x : GameState)
    (hx : (gameStates s)[k]? = some x) : x.g.turn = s.g.turn + k := by
  refine gameTrace_induction (fun k x => x.g.turn = s.g.turn + k) 10 s rfl ?_ k x hx
  intro k x x1 hP hg hb
  have hlt := ((loopGuard_iff x).1 hg).2
  rw [turnBody_turn x x1 hb, Nat.mod_eq_of_lt (by omega), hP]
  omega

/-- C8: in `simulateGame`, for two consecutive states `s`, `s1` of a game (before and
after one turn), the turn counter of `s1` is one more than that of `s` and the move is
attempted on the game that already carries the new counter `t`; when `t` is odd the first
agent acts with mark 1, when `t` is even the second agent acts with mark 2; every cell
that the turn changes holds the acting mark afterwards; and the other agent is
unchanged.  From an initialized game the state with index `k` has turn counter `k`, so
the first turn is turn 1 and PLAYER_ONE acts first. -/
theorem simulateGame_turn_order (g : PhilosopherGame) (p01 p02 : Philosopher) (k : Nat)
    (s s1 : GameState)
    (hs : (gameStates ⟨0, g, p01, p02⟩)[k]? = some s)
    (hs1 : (gameStates ⟨0, g, p01, p02⟩)[k + 1]? = some s1) :
    s.g.turn = g.turn + k ∧ s1.g.turn = s.g.turn + 1 ∧
    (s1.g.turn % 2 = 1 →
      simulateMove ⟨s.g.board, s.g.turn + 1⟩ s.p01 1 = some (s1.g, s1.p01) ∧
      s1.p02 = s.p02 ∧ ∀ c : Fin 9, s1.g.board c ≠ s.g.board c → s1.g.board c = 1) ∧
    (s1.g.turn % 2 = 0 →
      simulateMove ⟨s.g.board, s.g.turn + 1⟩ s.p02 2 = some (s1.g, s1.p02) ∧
      s1.p01 = s.p01 ∧ ∀ c : Fin 9, s1.g.board c ≠ s.g.board c → s1.g.board c = 2) := by
  obtain ⟨hg, hb⟩ := gameTrace_step 10 _ k s s1 hs hs1
  have hlt := ((loopGuard_iff s).1 hg).2
  have hmod : (s.g.turn + 1) % 256 = s.g.turn + 1 := Nat.mod_eq_of_lt (by omega)
  have hturn : s1.g.turn = s.g.turn + 1 := by rw [turnBody_turn s s1 hb, hmod]
  have hcell : ∀ (p : Philosopher) (pv : Nat) (p1 : Philosopher),
      simulateMove ⟨s.g.board, s.g.turn + 1⟩ p pv = some (s1.g, p1) →
      ∀ c : Fin 9, s1.g.board c ≠ s.g.board c → s1.g.board c = pv := by
    intro p pv p1 hm c hne
    rcases (simulateMove_board _ _ _ _ _ hm).2 with hsame | ⟨c1, _, hupd⟩
    · exact absurd (congrFun hsame c) hne
    · simp only at hupd
      rw [hupd] at hne ⊢
      by_cases hc : c = c1
      · rw [hc, Function.update_same]
      · rw [Function.update_noteq hc] at hne
        exact absurd rfl hne
  obtain ⟨_, hc | hc⟩ := turnBody_cases s s1 hb
  · rw [hmod] at hc
    refine ⟨gameStates_turn _ k s hs, hturn, fun _ => ⟨hc.2.1, hc.2.2, hcell _ _ _ hc.2.1⟩, ?_⟩
    intro heven; rw [hturn] at heven; omega
  · rw [hmod] at hc
    refine ⟨gameStates_turn _ k s hs, hturn, ?_, fun _ => ⟨hc.2.1, hc.2.2, hcell _ _ _ hc.2.1⟩⟩
    intro hodd; rw [hturn] at hodd; omega

/-- Witness for C8: the first turn of the game of `eagerAgent` against `silentAgent`. -/
theorem simulateGame_turn_order_witness :
    ∃ s1, (gameStates (startState sampleGame eagerAgent silentAgent))[1]? = some s1 ∧
      s1.g.turn = 1 ∧ s1.g.board 0 = 1 ∧
      simulateMove ⟨emptyBoard, 1⟩ eagerAgent 1 = some (s1.g, s1.p01) ∧
      s1.p02 = silentAgent := by
  have hs : (gameStates (startState sampleGame eagerAgent silentAgent))[0]? =
      some (startState sampleGame eagerAgent silentAgent) := rfl
  have hsome : ((gameStates (startState sampleGame eagerAgent silentAgent))[1]?).isSome = true := by
    decide
  obtain ⟨s1, hs1⟩ := Option.isSome_iff_exists.1 hsome
  have h := simulateGame_turn_order (initializeGame sampleGame) eagerAgent silentAgent 0
    (startState sampleGame eagerAgent silentAgent) s1 hs hs1
  have hodd : s1.g.turn % 2 = 1 := by rw [h.2.1]; rfl
  obtain ⟨hmove, hother, hcells⟩ := h.2.2.1 hodd
  have hcalc : (simulateMove ⟨emptyBoard, 1⟩ eagerAgent 1).map (fun out => out.1.board 0) =
      some 1 := by decide
  have hmove1 : simulateMove ⟨emptyBoard, 1⟩ eagerAgent 1 = some (s1.g, s1.p01) := by
    rw [startState_eq] at hmove
    exact hmove
  rw [hmove1] at hcalc
  exact ⟨s1, hs1, h.2.1, by simpa using hcalc, hmove1, hother⟩

/-- C7 (amended): in every state of a game from an initialized game, for every pair of
agents, PLAYER_ONE holds at most as many cells as it has had turns, `(t + 1) / 2`, and
PLAYER_TWO at most `t / 2`, where `t` is the turn counter; hence PLAYER_ONE holds at most
one cell more than PLAYER_TWO in every state in which PLAYER_TWO has marked a cell in each
of its turns. -/
theorem simulateGame_mark_counts (g0 : PhilosopherGame) (p01 p02 : Philosopher) (k : Nat)
    (s : GameState) (hs : (gameStates (startState g0 p01 p02))[k]? = some s) :
    countCells s.g.board 1 ≤ (s.g.turn + 1) / 2 ∧ countCells s.g.board 2 ≤ s.g.turn / 2 ∧
    (countCells s.g.board 2 = s.g.turn / 2 →
      countCells s.g.board 1 ≤ countCells s.g.board 2 + 1) := by
  have hinv : countCells s.g.board 1 ≤ (s.g.turn + 1) / 2 ∧
      countCells s.g.board 2 ≤ s.g.turn / 2 := by
    refine gameTrace_induction
      (fun _ x => countCells x.g.board 1 ≤ (x.g.turn + 1) / 2 ∧
        countCells x.g.board 2 ≤ x.g.turn / 2) 10 _ ?_ ?_ k s hs
    · have h0 : ∀ p, p ≠ 0 → countCells (startState g0 p01 p02).g.board p = 0 := by
        intro p hp
        rw [countCells_eq_sum]
        apply Finset.sum_eq_zero
        intro i _
        rw [startState_eq]
        exact if_neg (fun h => hp h.symm)
      show countCells (startState g0 p01 p02).g.board 1 ≤ _ ∧
        countCells (startState g0 p01 p02).g.board 2 ≤ _
      rw [h0 1 (by decide), h0 2 (by decide)]
      exact ⟨Nat.zero_le _, Nat.zero_le _⟩
    · intro _ x x1 hP hg hb
      have hlt := ((loopGuard_iff x).1 hg).2
      have hturn : x1.g.turn = x.g.turn + 1 := by
        rw [turnBody_turn x x1 hb, Nat.mod_eq_of_lt (by omega)]
      have hmod : (x.g.turn + 1) % 256 = x.g.turn + 1 := Nat.mod_eq_of_lt (by omega)
      have hcount : ∀ (p : Philosopher) (pv : Nat) (p1 : Philosopher),
          simulateMove ⟨x.g.board, (x.g.turn + 1) % 256⟩ p pv = some (x1.g, p1) →
          ∀ q, q ≠ 0 →
            countCells x1.g.board q ≤ countCells x.g.board q + (if pv = q then 1 else 0) := by
        intro p pv p1 hm q hq
        rcases (simulateMove_board _ _ _ _ _ hm).2 with hsame | ⟨c, hc0, hupd⟩
        · simp only at hsame
          rw [hsame]; omega
        · simp only at hupd hc0
          have hcu := countCells_update x.g.board c pv q
          rw [hc0, if_neg (fun h => hq h.symm)] at hcu
          rw [hupd]; omega
      obtain ⟨_, hc | hc⟩ := turnBody_cases x x1 hb
      · have h1 := hcount _ _ _ hc.2.1 1 (by decide)
        have h2 := hcount _ _ _ hc.2.1 2 (by decide)
        have hodd := hc.1
        rw [hmod] at hodd
        simp only [if_true, show ¬ (1 = 2) by decide, if_false] at h1 h2
        rw [hturn]
        omega
      · have h1 := hcount _ _ _ hc.2.1 1 (by decide)
        have h2 := hcount _ _ _ hc.2.1 2 (by decide)
        have heven := hc.1
        rw [hmod] at heven
        simp only [if_true, show ¬ (2 = 1) by decide, if_false] at h1 h2
        rw [hturn]
        omega
  exact ⟨hinv.1, hinv.2, fun _ => by omega⟩

/-- Witness for C7: the state after the third turn of `eagerAgent` against
`silentAgent`. -/
theorem simulateGame_mark_counts_witness :
    ∃ s, (gameStates (startState sampleGame eagerAgent silentAgent))[3]? = some s ∧
      countCells s.g.board 1 ≤ (s.g.turn + 1) / 2 ∧ countCells s.g.board 2 ≤ s.g.turn / 2 ∧
      (countCells s.g.board 2 = s.g.turn / 2 →
        countCells s.g.board 1 ≤ countCells s.g.board 2 + 1) := by
  have hsome : ((gameStates (startState sampleGame eagerAgent silentAgent))[3]?).isSome = true := by
    decide
  obtain ⟨s, hs⟩ := Option.isSome_iff_exists.1 hsome
  exact ⟨s, hs, simulateGame_mark_counts sampleGame eagerAgent silentAgent 3 s hs⟩

/-- Counterexample to C7: when `eagerAgent` plays first against `silentAgent`, which
passes every turn, the game returns after ten turns and from the third turn on the board
holds two PLAYER_ONE cells and no PLAYER_TWO cell. -/
theorem simulateGame_mark_counts_fail :
    ((gameStates (startState sampleGame eagerAgent silentAgent))[3]?).map
      (fun s => (s.g.turn, countCells s.g.board 1, countCells s.g.board 2)) = some (3, 2, 0) ∧
    (simulateGame (initializeGame sampleGame) eagerAgent silentAgent).final.map
      (fun s => (s.g.turn, countCells s.g.board 1, countCells s.g.board 2)) =
        some (10, 2, 0) := by
  constructor
  · decide
  · decide

theorem keepsTargets_default : keepsTargets DefaultGeneticRuleAdapter :=
  fun _ => ⟨rfl, rfl, rfl⟩

/-- Each rule after a scan is the rule before it, possibly after one feedback call. -/
theorem simulateMoveLoop_rules (ad : GeneticRuleAdapter) (pv : Nat) (g : PhilosopherGame)
    (rules : List PhilosopherRule) (g1 : PhilosopherGame) (rules1 : List PhilosopherRule)
    (h : simulateMoveLoop ad pv g rules = some (g1, rules1)) :
    List.Forall₂ (fun r r1 => r1 = r ∨ r1 = ad.match_ r ∨ r1 = ad.unmatch r ∨
      r1 = ad.invalid r) rules rules1 := by
  induction rules generalizing g1 rules1 with
  | nil =>
    simp only [simulateMoveLoop, Option.some.injEq, Prod.mk.injEq] at h
    rw [← h.2]; exact List.Forall₂.nil
  | cons r0 rest ih =>
    simp only [simulateMoveLoop] at h
    cases he : evalRule g r0 with
    | none => simp [he] at h
    | some t =>
      rw [he] at h
      simp only at h
      by_cases ht : t ≤ 8
      · rw [dif_pos ht] at h
        simp only [Option.some.injEq, Prod.mk.injEq] at h
        rw [← h.2]
        exact List.Forall₂.cons (Or.inr (Or.inl rfl))
          (List.forall₂_same.2 fun _ _ => Or.inl rfl)
      · rw [dif_neg ht] at h
        cases hrest : simulateMoveLoop ad pv g rest with
        | none => simp [hrest] at h
        | some out =>
          obtain ⟨g2, rules2⟩ := out
          rw [hrest] at h
          have ih2 := ih g2 rules2 hrest
          split at h
          · simp at h; rw [← h.2]
            exact List.Forall₂.cons (Or.inr (Or.inr (Or.inl rfl))) ih2
          · split at h
            · simp at h; rw [← h.2]
              exact List.Forall₂.cons (Or.inr (Or.inr (Or.inr rfl))) ih2
            · simp at h; rw [← h.2]
              exact List.Forall₂.cons (Or.inl rfl) ih2

theorem simulateMove_targets (g : PhilosopherGame) (p : Philosopher) (pv : Nat)
    (g1 : PhilosopherGame) (p1 : Philosopher) (h : simulateMove g p pv = some (g1, p1))
    (hk : keepsTargets p.adapter) (hr : targetsInRange p) :
    p1.adapter = p.adapter ∧ targetsInRange p1 := by
  unfold simulateMove at h
  cases hloop : simulateMoveLoop p.adapter pv g p.rules with
  | none => simp [hloop] at h
  | some out =>
    obtain ⟨g2, rules2⟩ := out
    rw [hloop] at h
    simp only [Option.map_some', Option.some.injEq, Prod.mk.injEq] at h
    rw [← h.2]
    refine ⟨rfl, ?_⟩
    have hall := simulateMoveLoop_rules p.adapter pv g p.rules g2 rules2 hloop
    intro r1 hmem
    simp only at hmem
    obtain ⟨i, hi⟩ := List.getElem?_of_mem hmem
    have hlen := hall.length_eq
    have hi2 : i < rules2.length := by
      rcases Nat.lt_or_ge i rules2.length with h | h
      · exact h
      · rw [List.getElem?_eq_none_iff.2 h] at hi; simp at hi
    have hget := List.forall₂_iff_get.1 hall
    have hrel := hget.2 i (by omega) hi2
    have hr1 : rules2.get ⟨i, hi2⟩ = r1 := by
      have := List.getElem?_eq_getElem hi2
      rw [this] at hi
      simpa using hi
    rw [hr1] at hrel
    have hr0 := hr (p.rules.get ⟨i, by omega⟩) (List.get_mem _ _ _)
    have hkk := hk (p.rules.get ⟨i, by omega⟩)
    rcases hrel with h | h | h | h
    · rw [h]; exact hr0
    · rw [h, hkk.1]; exact hr0
    · rw [h, hkk.2.1]; exact hr0
    · rw [h, hkk.2.2]; exact hr0

theorem evalWinnerLoop_cell (board : Cells) (ls : List (Fin 9 × Fin 9 × Fin 9)) :
    evalWinnerLoop board ls = 0 ∨ ∃ c : Fin 9, evalWinnerLoop board ls = board c := by
  induction ls with
  | nil => exact Or.inl rfl
  | cons l rest ih =>
    obtain ⟨a, b, c⟩ := l
    simp only [evalWinnerLoop]
    split
    · exact Or.inr ⟨a, rfl⟩
    · exact ih

theorem evalWinner_le_two (g : PhilosopherGame) (h : ∀ c : Fin 9, g.board c ≤ 2) :
    evalWinner g ≤ 2 := by
  rcases evalWinnerLoop_cell g.board winLines with h0 | ⟨c, hc⟩
  · unfold evalWinner; omega
  · unfold evalWinner; rw [hc]; exact h c

theorem turnBody_isSome (s : GameState) (h1 : targetsInRange s.p01)
    (h2 : targetsInRange s.p02) : ∃ s1, turnBody s = some s1 := by
  unfold turnBody
  simp only
  split
  · obtain ⟨g1, p1, hrun, _⟩ :=
      simulateMove_spec ⟨s.g.board, (s.g.turn + 1) % 256⟩ s.p01 1 h1
    rw [hrun]; exact ⟨_, rfl⟩
  · obtain ⟨g1, p1, hrun, _⟩ :=
      simulateMove_spec ⟨s.g.board, (s.g.turn + 1) % 256⟩ s.p02 2 h2
    rw [hrun]; exact ⟨_, rfl⟩

/-- In every state of a game from an initialized game the local `winner` is the winner
evaluation of the board and every cell is 0, 1 or 2. -/
theorem gameStates_cells (g0 : PhilosopherGame) (p01 p02 : Philosopher) (k : Nat)
    (x : GameState) (hx : (gameStates (startState g0 p01 p02))[k]? = some x) :
    x.winner = evalWinner x.g ∧ ∀ c : Fin 9, x.g.board c ≤ 2 := by
  refine gameTrace_induction
    (fun _ x => x.winner = evalWinner x.g ∧ ∀ c : Fin 9, x.g.board c ≤ 2) 10 _ ?_ ?_ k x hx
  · rw [startState_eq]
    exact ⟨rfl, fun _ => Nat.zero_le _⟩
  · intro _ x x1 hP _ hb
    have hcell : ∀ (p : Philosopher) (pv : Nat) (p1 : Philosopher), pv ≤ 2 →
        simulateMove ⟨x.g.board, (x.g.turn + 1) % 256⟩ p pv = some (x1.g, p1) →
        ∀ c : Fin 9, x1.g.board c ≤ 2 := by
      intro p pv p1 hpv hm c
      rcases (simulateMove_board _ _ _ _ _ hm).2 with hsame | ⟨c1, _, hupd⟩
      · simp only at hsame
        rw [hsame]; exact hP.2 c
      · simp only at hupd
        rw [hupd]
        by_cases hc : c = c1
        · rw [hc, Function.update_same]; exact hpv
        · rw [Function.update_noteq hc]; exact hP.2 c
    obtain ⟨hw, hc | hc⟩ := turnBody_cases x x1 hb
    · exact ⟨hw, hcell _ _ _ (by decide) hc.2.1⟩
    · exact ⟨hw, hcell _ _ _ (by decide) hc.2.1⟩

/-- With adapters that leave targets alone, the agents of every state of a game keep
their adapters and rule targets in [0,8]. -/
theorem gameStates_agents (s : GameState) (hk1 : keepsTargets s.p01.adapter)
    (hk2 : keepsTargets s.p02.adapter) (h1 : targetsInRange s.p01)
    (h2 : targetsInRange s.p02) (k : Nat) (x : GameState)
    (hx : (gameStates s)[k]? = some x) :
    x.p01.adapter = s.p01.adapter ∧ x.p02.adapter = s.p02.adapter ∧
      targetsInRange x.p01 ∧ targetsInRange x.p02 := by
  refine gameTrace_induction
    (fun _ x => x.p01.adapter = s.p01.adapter ∧ x.p02.adapter = s.p02.adapter ∧
      targetsInRange x.p01 ∧ targetsInRange x.p02) 10 _ ⟨rfl, rfl, h1, h2⟩ ?_ k x hx
  intro _ x x1 hP _ hb
  obtain ⟨ha1, ha2, ht1, ht2⟩ := hP
  obtain ⟨_, hc | hc⟩ := turnBody_cases x x1 hb
  · obtain ⟨had, htg⟩ := simulateMove_targets _ _ _ _ _ hc.2.1 (by rw [ha1]; exact hk1) ht1
    exact ⟨by rw [had, ha1], by rw [hc.2.2, ha2], htg, by rw [hc.2.2]; exact ht2⟩
  · obtain ⟨had, htg⟩ := simulateMove_targets _ _ _ _ _ hc.2.1 (by rw [ha2]; exact hk2) ht2
    exact ⟨by rw [hc.2.2, ha1], by rw [had, ha2], by rw [hc.2.2]; exact ht1, htg⟩

/-- How a run of the loop relates to the trace: the run ends in the last state of the
trace, with the loop condition false when it returns, with a faulting loop body when it
faults, and with the whole budget used when it runs out of fuel. -/
theorem simulateGameLoop_trace (n : Nat) (s : GameState) :
    ∃ x, (s :: gameTrace n s).getLast? = some x ∧
      ((simulateGameLoop n s = Run.returned x ∧ loopGuard x = false) ∨
       (simulateGameLoop n s = Run.fault ∧ loopGuard x = true ∧ turnBody x = none) ∨
       (simulateGameLoop n s = Run.outOfFuel ∧ loopGuard x = true ∧
         (gameTrace n s).length = n)) := by
  induction n generalizing s with
  | zero =>
    refine ⟨s, rfl, ?_⟩
    by_cases hg : loopGuard s = true
    · exact Or.inr (Or.inr ⟨by simp [simulateGameLoop, hg], hg, rfl⟩)
    · exact Or.inl ⟨by simp [simulateGameLoop, hg], by simpa using hg⟩
  | succ n ih =>
    by_cases hg : loopGuard s = true
    · cases hb : turnBody s with
      | none =>
        exact ⟨s, by simp [gameTrace, hg, hb],
          Or.inr (Or.inl ⟨by simp [simulateGameLoop, hg, hb], hg, hb⟩)⟩
      | some s1 =>
        obtain ⟨x, hlast, hrun⟩ := ih s1
        refine ⟨x, ?_, ?_⟩
        · simp only [gameTrace, hg, hb, if_true]
          rw [List.getLast?_cons_cons]; exact hlast
        · simp only [simulateGameLoop, gameTrace, hg, hb, if_true, List.length_cons]
          rcases hrun with h | h | h
          · exact Or.inl h
          · exact Or.inr (Or.inl h)
          · exact Or.inr (Or.inr ⟨h.1, h.2.1, by rw [h.2.2]⟩)
    · exact ⟨s, by simp [gameTrace, hg],
        Or.inl ⟨by simp [simulateGameLoop, hg], by simpa using hg⟩⟩

/-- Ten iterations are a sufficient budget: `simulateGame` never runs out of fuel. -/
theorem simulateGame_fuel (g : PhilosopherGame) (p01 p02 : Philosopher) :
    simulateGame g p01 p02 ≠ Run.outOfFuel := by
  intro hfuel
  obtain ⟨x, hlast, hrun⟩ := simulateGameLoop_trace 10 ⟨0, g, p01, p02⟩
  unfold simulateGame at hfuel
  rw [hfuel] at hrun
  rcases hrun with h | h | h
  · exact absurd h.1 (by simp)
  · exact absurd h.1 (by simp)
  · obtain ⟨_, hg, hlen⟩ := h
    have hidx : (gameStates ⟨0, g, p01, p02⟩)[10]? = some x := by
      unfold gameStates
      rw [List.getLast?_eq_getElem?] at hlast
      simpa [hlen] using hlast
    have hturn := gameStates_turn _ 10 x hidx
    have hlt := ((loopGuard_iff x).1 hg).2
    simp only at hturn
    omega

theorem loopGuard_iff_evalWinner (g0 : PhilosopherGame) (p01 p02 : Philosopher) (k : Nat)
    (x : GameState) (hx : (gameStates (startState g0 p01 p02))[k]? = some x) :
    loopGuard x = true ↔ evalWinner x.g = 0 ∧ x.g.turn < 10 := by
  obtain ⟨hw, hcells⟩ := gameStates_cells g0 p01 p02 k x hx
  have hle := evalWinner_le_two x.g hcells
  rw [loopGuard_iff, hw]
  constructor
  · rintro ⟨h | h, hlt⟩
    · exact ⟨h, hlt⟩
    · omega
  · rintro ⟨h, hlt⟩
    exact ⟨Or.inl h, hlt⟩

/-- C6: for two agents whose rules have targets in [0,8] (and whose adapters, like the
default one, leave targets alone), `simulateGame` on an initialized game returns, in the
last state `sf` of the game; the number of turns run is the final turn counter, between 1
and 10; on return the winner evaluation is PLAYER_ONE or PLAYER_TWO or the turn counter is
10; a state of the game is followed by another turn exactly when the winner evaluation of
its board is NONE and its turn counter is below 10; and the winner evaluation is NONE in
every state before the last. -/
theorem simulateGame_terminates (g0 : PhilosopherGame) (p01 p02 : Philosopher)
    (h1 : targetsInRange p01) (h2 : targetsInRange p02)
    (hk1 : keepsTargets p01.adapter) (hk2 : keepsTargets p02.adapter) :
    ∃ sf, simulateGame (initializeGame g0) p01 p02 = Run.returned sf ∧
      (gameStates (startState g0 p01 p02)).getLast? = some sf ∧
      (gameStates (startState g0 p01 p02)).length = sf.g.turn + 1 ∧
      1 ≤ sf.g.turn ∧ sf.g.turn ≤ 10 ∧
      (evalWinner sf.g = 1 ∨ evalWinner sf.g = 2 ∨ sf.g.turn = 10) ∧
      (∀ (k : Nat) (x : GameState), (gameStates (startState g0 p01 p02))[k]? = some x →
        x.g.turn = k ∧
        (((gameStates (startState g0 p01 p02))[k + 1]?).isSome = true ↔
          evalWinner x.g = 0 ∧ x.g.turn < 10)) ∧
      (∀ (k : Nat) (x : GameState), (gameStates (startState g0 p01 p02))[k]? = some x →
        k + 1 < (gameStates (startState g0 p01 p02)).length → evalWinner x.g = 0) := by
  have hturn : ∀ (k : Nat) (x : GameState),
      (gameStates (startState g0 p01 p02))[k]? = some x → x.g.turn = k := by
    intro k x hx
    have := gameStates_turn _ k x hx
    simpa [startState, initializeGame] using this
  have hbody : ∀ (k : Nat) (x : GameState),
      (gameStates (startState g0 p01 p02))[k]? = some x → ∃ x1, turnBody x = some x1 := by
    intro k x hx
    obtain ⟨_, _, ht1, ht2⟩ := gameStates_agents (startState g0 p01 p02) hk1 hk2 h1 h2 k x hx
    exact turnBody_isSome x ht1 ht2
  have hnext : ∀ (k : Nat) (x : GameState),
      (gameStates (startState g0 p01 p02))[k]? = some x →
      (((gameStates (startState g0 p01 p02))[k + 1]?).isSome = true ↔
        evalWinner x.g = 0 ∧ x.g.turn < 10) := by
    intro k x hx
    rw [← loopGuard_iff_evalWinner g0 p01 p02 k x hx]
    constructor
    · intro hsome
      obtain ⟨x1, hx1⟩ := Option.isSome_iff_exists.1 hsome
      exact (gameTrace_step 10 _ k x x1 hx hx1).1
    · intro hg
      obtain ⟨x1, hb⟩ := hbody k x hx
      have hlt := ((loopGuard_iff x).1 hg).2
      rw [hturn k x hx] at hlt
      have := gameTrace_next 10 _ k x x1 hlt hx hg hb
      unfold gameStates
      rw [this]; rfl
  obtain ⟨sf, hlast, hrun⟩ := simulateGameLoop_trace 10 (startState g0 p01 p02)
  have hlast1 : (gameStates (startState g0 p01 p02)).getLast? = some sf := hlast
  have hidx : (gameStates (startState g0 p01 p02))[
      (gameStates (startState g0 p01 p02)).length - 1]? = some sf := by
    rw [← List.getLast?_eq_getElem?]; exact hlast1
  have hlen : (gameStates (startState g0 p01 p02)).length = sf.g.turn + 1 := by
    have hpos : 0 < (gameStates (startState g0 p01 p02)).length := by
      unfold gameStates; simp
    rw [hturn _ sf hidx]; omega
  have hle : (gameStates (startState g0 p01 p02)).length ≤ 11 := by
    have := gameTrace_length_le 10 (startState g0 p01 p02)
    unfold gameStates; simp only [List.length_cons]; omega
  have hge : 2 ≤ (gameStates (startState g0 p01 p02)).length := by
    have h0 : (gameStates (startState g0 p01 p02))[0]? = some (startState g0 p01 p02) := by
      simp [gameStates]
    have hsome := (hnext 0 _ h0).2 ⟨rfl, Nat.zero_lt_succ 9⟩
    obtain ⟨x1, hx1⟩ := Option.isSome_iff_exists.1 hsome
    rcases Nat.lt_or_ge 1 (gameStates (startState g0 p01 p02)).length with h | h
    · exact h
    · rw [List.getElem?_eq_none_iff.2 h] at hx1; simp at hx1
  have hreturned : simulateGameLoop 10 (startState g0 p01 p02) = Run.returned sf ∧
      loopGuard sf = false := by
    rcases hrun with h | h | h
    · exact h
    · obtain ⟨x1, hb⟩ := hbody _ sf hidx
      rw [hb] at h; simp at h
    · exact absurd h.1 (simulateGame_fuel (initializeGame g0) p01 p02)
  have hfinal : evalWinner sf.g = 1 ∨ evalWinner sf.g = 2 ∨ sf.g.turn = 10 := by
    have hng : ¬ (evalWinner sf.g = 0 ∧ sf.g.turn < 10) := by
      rw [← loopGuard_iff_evalWinner g0 p01 p02 _ sf hidx, hreturned.2]; simp
    have hw := evalWinner_le_two sf.g (gameStates_cells g0 p01 p02 _ sf hidx).2
    by_cases hz : evalWinner sf.g = 0
    · have : ¬ sf.g.turn < 10 := fun hlt => hng ⟨hz, hlt⟩
      omega
    · omega
  refine ⟨sf, hreturned.1, hlast1, hlen, by omega, by omega, hfinal,
    fun k x hx => ⟨hturn k x hx, hnext k x hx⟩, ?_⟩
  intro k x hx hk
  have hsome : ((gameStates (startState g0 p01 p02))[k + 1]?).isSome = true := by
    rw [List.getElem?_eq_getElem hk]; rfl
  exact ((hnext k x hx).1 hsome).1

/-- Witness for C6: the game of `eagerAgent` against `silentAgent`. -/
theorem simulateGame_terminates_witness :
    ∃ sf, simulateGame (initializeGame sampleGame) eagerAgent silentAgent = Run.returned sf ∧
      (gameStates (startState sampleGame eagerAgent silentAgent)).getLast? = some sf ∧
      (gameStates (startState sampleGame eagerAgent silentAgent)).length = sf.g.turn + 1 ∧
      1 ≤ sf.g.turn ∧ sf.g.turn ≤ 10 ∧
      (evalWinner sf.g = 1 ∨ evalWinner sf.g = 2 ∨ sf.g.turn = 10) ∧
      (∀ (k : Nat) (x : GameState),
        (gameStates (startState sampleGame eagerAgent silentAgent))[k]? = some x →
        x.g.turn = k ∧
        (((gameStates (startState sampleGame eagerAgent silentAgent))[k + 1]?).isSome = true ↔
          evalWinner x.g = 0 ∧ x.g.turn < 10)) ∧
      (∀ (k : Nat) (x : GameState),
        (gameStates (startState sampleGame eagerAgent silentAgent))[k]? = some x →
        k + 1 < (gameStates (startState sampleGame eagerAgent silentAgent)).length →
        evalWinner x.g = 0) :=
  simulateGame_terminates sampleGame eagerAgent silentAgent (by decide) (by decide)
    keepsTargets_default keepsTargets_default

/-! ## Rule files: lemmas -/

theorem split_ne_nil (sep : Nat) (l : List Nat) : split sep l ≠ [] := by
  cases l with
  | nil => simp [split]
  | cons c cs =>
    unfold split
    split
    · simp
    · split <;> simp

theorem split_no_sep (sep : Nat) (l : List Nat) (h : ∀ c ∈ l, c ≠ sep) :
    split sep l = [l] := by
  induction l with
  | nil => rfl
  | cons c cs ih =>
    have hc : c ≠ sep := h c (List.mem_cons_self _ _)
    have hcs := ih (fun x hx => h x (List.mem_cons_of_mem _ hx))
    simp [split, hc, hcs]

theorem split_append (sep : Nat) (a rest : List Nat) (h : ∀ c ∈ a, c ≠ sep) :
    split sep (a ++ sep :: rest) = a :: split sep rest := by
  induction a with
  | nil => simp [split]
  | cons c cs ih =>
    have hc : c ≠ sep := h c (List.mem_cons_self _ _)
    have hcs := ih (fun x hx => h x (List.mem_cons_of_mem _ hx))
    simp [split, hc, hcs]

theorem scanLinesFrom_line (tok line rest : List Nat) (h : ∀ c ∈ line, c ≠ 10)
    (hlen : tok.length + line.length < maxScanTokenSize) :
    scanLinesFrom tok (line ++ 10 :: rest) = dropCR (tok ++ line) :: scanLinesFrom [] rest := by
  induction line generalizing tok with
  | nil => simp [scanLinesFrom]
  | cons c cs ih =>
    have hc : c ≠ 10 := h c (List.mem_cons_self _ _)
    have hfit : ¬ maxScanTokenSize ≤ tok.length + 1 := by
      simp only [List.length_cons] at hlen
      omega
    have hcs := ih (tok ++ [c]) (fun x hx => h x (List.mem_cons_of_mem _ hx)) (by
      simp only [List.length_append, List.length_cons, List.length_nil] at hlen ⊢
      omega)
    simp [scanLinesFrom, hc, hfit, hcs]

/-- A line that reaches `maxScanTokenSize` bytes without a newline ends the scan: no token
is produced from it or from what follows. -/
theorem scanLinesFrom_long (tok long rest : List Nat) (h : ∀ c ∈ long, c ≠ 10)
    (htok : tok.length < maxScanTokenSize)
    (hlen : maxScanTokenSize ≤ tok.length + long.length) :
    scanLinesFrom tok (long ++ rest) = [] := by
  induction long generalizing tok with
  | nil =>
    simp only [List.length_nil] at hlen
    omega
  | cons c cs ih =>
    have hc : c ≠ 10 := h c (List.mem_cons_self _ _)
    by_cases hfull : maxScanTokenSize ≤ tok.length + 1
    · simp [scanLinesFrom, hc, hfull]
    · have hcs := ih (tok ++ [c]) (fun x hx => h x (List.mem_cons_of_mem _ hx))
        (by simp only [List.length_append, List.length_cons, List.length_nil]; omega)
        (by
          simp only [List.length_append, List.length_cons, List.length_nil] at hlen ⊢
          omega)
      simp [scanLinesFrom, hc, hfull, hcs]

/-- The scanner yields the lines before a line of `maxScanTokenSize` bytes or more and
nothing from that line on. -/
theorem scanLines_long (lines : List (List Nat)) (long rest : List Nat)
    (hlines : ∀ l ∈ lines, (∀ c ∈ l, c ≠ 10) ∧ l.length < maxScanTokenSize)
    (h : ∀ c ∈ long, c ≠ 10) (hlen : maxScanTokenSize ≤ long.length) :
    scanLines (lines.flatMap (fun l => l ++ [10]) ++ long ++ rest) = lines.map dropCR := by
  unfold scanLines
  induction lines with
  | nil =>
    simp only [List.flatMap_nil, List.nil_append, List.map_nil]
    exact scanLinesFrom_long [] long rest h (by decide) (by simpa using hlen)
  | cons l ls ih =>
    obtain ⟨hl, hshort⟩ := hlines l (List.mem_cons_self _ _)
    have ih1 := ih (fun x hx => hlines x (List.mem_cons_of_mem _ hx))
    simp only [List.flatMap_cons, List.append_assoc, List.singleton_append, List.map_cons,
      List.cons_append] at ih1 ⊢
    rw [scanLinesFrom_line [] l _ hl (by simpa using hshort)]
    simp only [List.nil_append]
    rw [ih1]

theorem sprintByte_digit (b : Nat) (h : b ≤ 9) : sprintByte b = [48 + b] := by
  unfold sprintByte
  interval_cases b <;> rfl

theorem patternText (r : PhilosopherRule) (h : ∀ i : Fin 9, r.value i ≤ 3) :
    (List.finRange 9).flatMap (fun z => sprintByte (r.value z)) =
      (List.finRange 9).map (fun z => 48 + r.value z) := by
  have hd : ∀ i : Fin 9, sprintByte (r.value i) = [48 + r.value i] :=
    fun i => sprintByte_digit _ (by have := h i; omega)
  simp only [hd]
  rw [finRange9]
  rfl

theorem parseRule_ruleLine (sprintFloat : ℚ → List Nat) (parseFloat : List Nat → ℚ × Bool)
    (r : PhilosopherRule) (hv : ∀ i : Fin 9, r.value i ≤ 3) (ht : r.result ≤ 8)
    (hw : plainText (sprintFloat r.w)) :
    parseRule parseFloat (ruleLine sprintFloat r) =
      some ⟨r.value, r.result, (parseFloat (sprintFloat r.w)).1⟩ := by
  have hsplit : split 9 (ruleLine sprintFloat r) =
      [(List.finRange 9).map (fun z => 48 + r.value z), [48 + r.result], sprintFloat r.w] := by
    unfold ruleLine
    rw [patternText r hv, sprintByte_digit r.result (by omega)]
    have h2 : split 9 ([48 + r.result] ++ 9 :: sprintFloat r.w) =
        [[48 + r.result], sprintFloat r.w] := by
      rw [split_append, split_no_sep]
      · intro c hc; exact (hw.1 c hc).1
      · intro c hc; simp at hc; omega
    have h1 := split_append 9 ((List.finRange 9).map (fun z => 48 + r.value z))
      ([48 + r.result] ++ 9 :: sprintFloat r.w) (by
        intro c hc
        simp only [List.mem_map] at hc
        obtain ⟨z, _, rfl⟩ := hc
        omega)
    rw [h2] at h1
    simpa using h1
  unfold parseRule
  simp only [hsplit]
  simp
  refine ⟨funext fun i => ?_, ?_⟩
  · have := hv i; omega
  · omega

/-- The line written for a rule with cells in {0,1,2,3} and target in [0,8]: nine digit
characters, a tab, the target digit, a tab, the weight. -/
theorem ruleLine_form (sprintFloat : ℚ → List Nat) (r : PhilosopherRule)
    (hv : ∀ i : Fin 9, r.value i ≤ 3) (ht : r.result ≤ 8) :
    ruleLine sprintFloat r =
      (List.finRange 9).map (fun z => 48 + r.value z) ++ [9] ++ [48 + r.result] ++ [9] ++
        sprintFloat r.w := by
  unfold ruleLine
  rw [patternText r hv, sprintByte_digit r.result (by omega)]

theorem ruleLine_plain (sprintFloat : ℚ → List Nat) (r : PhilosopherRule)
    (hv : ∀ i : Fin 9, r.value i ≤ 3) (ht : r.result ≤ 8)
    (hw : plainText (sprintFloat r.w)) :
    (∀ c ∈ ruleLine sprintFloat r, c ≠ 10) ∧
      dropCR (ruleLine sprintFloat r) = ruleLine sprintFloat r ∧
      (ruleLine sprintFloat r).length < maxScanTokenSize := by
  have hform := ruleLine_form sprintFloat r hv ht
  have hmem : ∀ c ∈ ruleLine sprintFloat r, c ≠ 10 ∧ c ≠ 13 := by
    intro c hc
    rw [hform] at hc
    simp only [List.mem_append, List.mem_map, List.mem_singleton] at hc
    rcases hc with (((⟨z, _, rfl⟩ | rfl) | rfl) | rfl) | hc
    · have := hv z; omega
    · decide
    · omega
    · decide
    · exact (hw.1 c hc).2
  refine ⟨fun c hc => (hmem c hc).1, ?_, ?_⟩
  · unfold dropCR
    rw [if_neg]
    intro hlast
    exact (hmem 13 (List.mem_of_getLast?_eq_some hlast)).2 rfl
  · have hlong := hw.2
    rw [hform]
    simp only [List.length_append, List.length_map, List.length_finRange,
      List.length_singleton]
    omega

/-- The lines scanned from a written file are the written lines, and each parses back to
its rule with the weight sent through the two float conversions. -/
theorem parseLines_write (sprintFloat : ℚ → List Nat) (parseFloat : List Nat → ℚ × Bool)
    (rules : List PhilosopherRule)
    (h : ∀ r ∈ rules, (∀ i : Fin 9, r.value i ≤ 3) ∧ r.result ≤ 8 ∧
      plainText (sprintFloat r.w)) :
    scanLines (rules.flatMap fun r => ruleLine sprintFloat r ++ [10]) =
      rules.map (ruleLine sprintFloat) ∧
    parseLines parseFloat (rules.map (ruleLine sprintFloat)) =
      some (rules.map fun r => ⟨r.value, r.result, (parseFloat (sprintFloat r.w)).1⟩) := by
  induction rules with
  | nil => exact ⟨rfl, rfl⟩
  | cons r rest ih =>
    obtain ⟨hv, ht, hw⟩ := h r (List.mem_cons_self _ _)
    obtain ⟨ih1, ih2⟩ := ih (fun x hx => h x (List.mem_cons_of_mem _ hx))
    obtain ⟨hnl, hcr, hshort⟩ := ruleLine_plain sprintFloat r hv ht hw
    constructor
    · unfold scanLines at ih1 ⊢
      simp only [List.flatMap_cons, List.append_assoc, List.singleton_append, List.map_cons]
      rw [scanLinesFrom_line [] _ _ hnl (by simpa using hshort), List.nil_append, hcr, ih1]
    · simp only [List.map_cons, parseLines,
        parseRule_ruleLine sprintFloat parseFloat r hv ht hw, ih2, Option.map_some']

/-- C9: round trip.  For rules whose pattern cells are in {0,1,2,3} and whose targets are
in [0,8], the lines scanned from the file that `writeRulesToFile` writes are, rule by
rule, nine digit characters, a tab, the target digit, a tab and the weight; they parse, by
`parseRule` line by line as in `readRulesFromFile`, to a list of the same length and
order whose rules have the original patterns and targets; the weight of each is the
original weight sent through `fmt.Sprint` and `strconv.ParseFloat`, hence within 1e-9 of
the original whenever these two conversions, which write a number without tabs or line
breaks, return it within 1e-9. -/
theorem rules_round_trip (sprintFloat : ℚ → List Nat) (parseFloat : List Nat → ℚ × Bool)
    (p q : Philosopher)
    (hv : ∀ r ∈ p.rules, ∀ i : Fin 9, r.value i ≤ 3) (ht : ∀ r ∈ p.rules, r.result ≤ 8)
    (hplain : ∀ r ∈ p.rules, plainText (sprintFloat r.w))
    (hfloat : ∀ r ∈ p.rules, |(parseFloat (sprintFloat r.w)).1 - r.w| ≤ 1 / 10 ^ 9) :
    scanLines (writeRulesToFile sprintFloat p) =
      p.rules.map (fun r => (List.finRange 9).map (fun z => 48 + r.value z) ++ [9] ++
        [48 + r.result] ++ [9] ++ sprintFloat r.w) ∧
    ∃ rules1, parseLines parseFloat (scanLines (writeRulesToFile sprintFloat p)) = some rules1 ∧
      readRulesFromFile parseFloat q (writeRulesToFile sprintFloat p) =
        some ⟨q.name, rules1, q.adapter⟩ ∧
      rules1.length = p.rules.length ∧
      List.Forall₂ (fun r r1 => r1.value = r.value ∧ r1.result = r.result ∧
        |r1.w - r.w| ≤ 1 / 10 ^ 9) p.rules rules1 := by
  obtain ⟨hscan, hparse⟩ := parseLines_write sprintFloat parseFloat p.rules
    (fun r hr => ⟨hv r hr, ht r hr, hplain r hr⟩)
  have hlines : parseLines parseFloat (scanLines (writeRulesToFile sprintFloat p)) =
      some (p.rules.map fun r => ⟨r.value, r.result, (parseFloat (sprintFloat r.w)).1⟩) := by
    unfold writeRulesToFile
    rw [hscan, hparse]
  refine ⟨?_, _, hlines, by simp [readRulesFromFile, hlines], by simp, ?_⟩
  · unfold writeRulesToFile
    rw [hscan]
    exact List.map_congr_left fun r hr => ruleLine_form sprintFloat r (hv r hr) (ht r hr)
  · rw [List.forall₂_map_right_iff]
    exact List.forall₂_same.2 fun r hr => ⟨rfl, rfl, hfloat r hr⟩

/-- Witness for C9: the four rules of `sampleAgent`, all of weight 0. -/
theorem rules_round_trip_witness :
    scanLines (writeRulesToFile sprintZero sampleAgent) =
      sampleAgent.rules.map (fun r => (List.finRange 9).map (fun z => 48 + r.value z) ++ [9] ++
        [48 + r.result] ++ [9] ++ sprintZero r.w) ∧
    ∃ rules1,
      parseLines parseZero (scanLines (writeRulesToFile sprintZero sampleAgent)) = some rules1 ∧
      readRulesFromFile parseZero silentAgent (writeRulesToFile sprintZero sampleAgent) =
        some ⟨silentAgent.name, rules1, silentAgent.adapter⟩ ∧
      rules1.length = sampleAgent.rules.length ∧
      List.Forall₂ (fun r r1 => r1.value = r.value ∧ r1.result = r.result ∧
        |r1.w - r.w| ≤ 1 / 10 ^ 9) sampleAgent.rules rules1 :=
  rules_round_trip sprintZero parseZero sampleAgent silentAgent
    (by simp [sampleAgent, allWildcard, cellsOf]; decide) (by decide) (by decide)
    (by simp [sampleAgent, parseZero, sprintZero])

theorem parseLines_none_iff (parseFloat : List Nat → ℚ × Bool) (lines : List (List Nat)) :
    parseLines parseFloat lines = none ↔ ∃ l ∈ lines, parseRule parseFloat l = none := by
  induction lines with
  | nil => simp [parseLines]
  | cons l rest ih =>
    cases hl : parseRule parseFloat l with
    | none => simp [parseLines, hl]
    | some r => simp [parseLines, hl, ih]

/-- C10 (amended): `parseRule` faults on exactly the lines that have fewer than three
tab-separated fields, or a first field shorter than nine bytes, or an empty second field,
and such a line, when the scanner yields it, aborts the whole load in
`readRulesFromFile`.  Every other line yields a rule: fields after the third are ignored,
the weight is whatever `ParseFloat` returns also when it reports an error, and every
pattern and target byte is stored minus 48 modulo 256 whether or not it is a digit in
range.  A line of `maxScanTokenSize` bytes or more is not a fatal error either: the
scanner stops there and the load returns with the rules of the lines before it. -/
theorem parseRule_faults (parseFloat : List Nat → ℚ × Bool) (line : List Nat) :
    (parseRule parseFloat line = none ↔
      (split 9 line).length < 3 ∨ (((split 9 line)[0]?).getD []).length < 9 ∨
        (split 9 line)[1]? = some []) ∧
    (∀ (p : Philosopher) (content : List Nat), line ∈ scanLines content →
      parseRule parseFloat line = none → readRulesFromFile parseFloat p content = none) ∧
    (∀ (f0 f2 bs : List Nat) (b : Nat) (more : List (List Nat)),
      split 9 line = f0 :: (b :: bs) :: f2 :: more → 9 ≤ f0.length →
      ∃ r, parseRule parseFloat line = some r ∧
        (∀ i : Fin 9, r.value i = (f0.getD i.val 0 + 256 - 48) % 256) ∧
        r.result = (b + 256 - 48) % 256 ∧ r.w = (parseFloat f2).1) ∧
    (∀ (p : Philosopher) (lines : List (List Nat)) (long rest : List Nat),
      (∀ l ∈ lines, (∀ c ∈ l, c ≠ 10) ∧ l.length < maxScanTokenSize) →
      (∀ c ∈ long, c ≠ 10) → maxScanTokenSize ≤ long.length →
      readRulesFromFile parseFloat p
          (lines.flatMap (fun l => l ++ [10]) ++ long ++ rest) =
        (parseLines parseFloat (lines.map dropCR)).map
          (fun rules => ⟨p.name, rules, p.adapter⟩)) := by
  refine ⟨?_, ?_, ?_, ?_⟩
  rotate_left 3
  · intro p lines long rest hlines hlong hlen
    unfold readRulesFromFile
    rw [scanLines_long lines long rest hlines hlong hlen]
  · unfold parseRule
    simp only
    rcases hs : split 9 line with _ | ⟨f0, _ | ⟨f1, _ | ⟨f2, more⟩⟩⟩
    · exact absurd hs (split_ne_nil 9 line)
    · by_cases h9 : 9 ≤ f0.length <;> simp [h9]
    · by_cases h9 : 9 ≤ f0.length
      · cases f1 <;> simp [h9]
      · simp [h9]
    · by_cases h9 : 9 ≤ f0.length
      · cases f1 with
        | nil => simp [h9]
        | cons b bs => simp [h9]
      · simp [h9]; omega
  · intro p content hmem hnone
    have := (parseLines_none_iff parseFloat (scanLines content)).2 ⟨line, hmem, hnone⟩
    simp [readRulesFromFile, this]
  · intro f0 f2 bs b more hs h9
    unfold parseRule
    simp only [hs]
    simp [h9]
    intro i
    rw [List.getElem?_eq_getElem (by omega), Option.getD_some]

/-- Witness for C10: a line with two fields faults. -/
theorem parseRule_faults_witness : parseRule parseZero (ascii "000000000\t0") = none :=
  (parseRule_faults parseZero (ascii "000000000\t0")).1.2 (Or.inl (by decide))

/-- Counterexample to C10: `parseRule` returns a rule for a line with four fields, for a
line whose weight field `abc` is rejected by `ParseFloat`, for a line whose first pattern
character is `9` (stored as cell value 9) and for a line whose target character is `9`
(stored as target 9). -/
theorem parseRule_accepts_malformed :
    (split 9 (ascii "000000000\t0\t0\textra")).length = 4 ∧
    (parseRule parseZero (ascii "000000000\t0\t0\textra")).isSome = true ∧
    (parseZero (ascii "abc")).2 = true ∧
    (parseRule parseZero (ascii "000000000\t0\tabc")).isSome = true ∧
    (parseRule parseZero (ascii "900000000\t0\t0")).map (fun r => r.value 0) = some 9 ∧
    (parseRule parseZero (ascii "000000000\t9\t0")).map (fun r => r.result) = some 9 := by
  decide

/-! ## Reset and order of the winning lines -/

/-- C16: for every game, whatever its board and turn counter, `initializeGame` yields
(it is a total function) the game whose nine cells are all 0 and whose turn counter is 0;
so it is idempotent and its result does not depend on the game it is given.  In `run`,
every iteration plays its game from that empty state, whatever game `g1` the previous
iteration left: when `simulateGame` on the empty game returns in a state `s`, the run
goes on with the remaining games from the game and the agents of `s` (and resets again);
when it does not return, the run ends with the fault.  Hence the run does not depend on
the game it starts with. -/
theorem initializeGame_spec (g : PhilosopherGame) :
    (∀ c : Fin 9, (initializeGame g).board c = 0) ∧ (initializeGame g).turn = 0 ∧
    initializeGame (initializeGame g) = initializeGame g ∧
    (∀ g1 : PhilosopherGame, initializeGame g1 = initializeGame g) ∧
    (∀ (g1 : PhilosopherGame) (p01 p02 : Philosopher) (count : Nat),
      runGames (count + 1) g1 p01 p02 = runGames (count + 1) g p01 p02) ∧
    (∀ (g1 : PhilosopherGame) (p01 p02 : Philosopher) (count : Nat) (s : GameState),
      simulateGame ⟨fun _ => 0, 0⟩ p01 p02 = Run.returned s →
      runGames (count + 1) g1 p01 p02 = runGames count s.g s.p01 s.p02) ∧
    (∀ (g1 : PhilosopherGame) (p01 p02 : Philosopher) (count : Nat),
      (∀ s : GameState, simulateGame ⟨fun _ => 0, 0⟩ p01 p02 ≠ Run.returned s) →
      runGames (count + 1) g1 p01 p02 = none) ∧
    (∀ (g1 : PhilosopherGame) (p01 p02 : Philosopher),
      runGames 0 g1 p01 p02 = some (g1, p01, p02)) := by
  refine ⟨fun c => by rw [initializeGame_eq], by rw [initializeGame_eq],
    by rw [initializeGame_eq, initializeGame_eq],
    fun g1 => by rw [initializeGame_eq, initializeGame_eq], ?_, ?_, ?_, fun _ _ _ => rfl⟩
  · intro g1 p01 p02 count
    simp only [runGames, initializeGame_eq]
  · intro g1 p01 p02 count s hs
    simp only [runGames, initializeGame_eq, hs]
  · intro g1 p01 p02 count hno
    cases hrun : simulateGame ⟨fun _ => 0, 0⟩ p01 p02 with
    | returned s => exact absurd hrun (hno s)
    | fault => simp only [runGames, initializeGame_eq, hrun]
    | outOfFuel => simp only [runGames, initializeGame_eq, hrun]

theorem evalWinnerLoop_first (board : Cells) (pre post : List (Fin 9 × Fin 9 × Fin 9))
    (l : Fin 9 × Fin 9 × Fin 9) (hpre : ∀ x ∈ pre, ¬ lineComplete board x)
    (hl : lineComplete board l) : evalWinnerLoop board (pre ++ l :: post) = board l.1 := by
  induction pre with
  | nil =>
    obtain ⟨a, b, c⟩ := l
    have h : board a > 0 ∧ board a = board b ∧ board a = board c :=
      ⟨Nat.pos_of_ne_zero hl.1, hl.2.1, hl.2.2⟩
    simp only [List.nil_append, evalWinnerLoop, if_pos h]
  | cons x rest ih =>
    obtain ⟨a, b, c⟩ := x
    have hx : ¬ (board a > 0 ∧ board a = board b ∧ board a = board c) := by
      intro h
      exact hpre (a, b, c) (List.mem_cons_self _ _) ⟨Nat.ne_of_gt h.1, h.2.1, h.2.2⟩
    simp only [List.cons_append, evalWinnerLoop, if_neg hx]
    exact ih (fun y hy => hpre y (List.mem_cons_of_mem _ hy))

/-- C11: on every board with a complete line, in particular on every board with two or
more complete lines, `evalWinner` (a total function) returns the value of the complete
line that comes first in the order rows 0-1-2, 3-4-5, 6-7-8, columns 0-3-6, 1-4-7,
2-5-8, diagonals 0-4-8, 2-4-6: the line `l` is complete and no line before it in that
order is.  With the top row all PLAYER_TWO and the middle row all PLAYER_ONE it returns
PLAYER_TWO. -/
theorem evalWinner_first_line (g : PhilosopherGame)
    (pre post : List (Fin 9 × Fin 9 × Fin 9)) (l : Fin 9 × Fin 9 × Fin 9)
    (horder : [((0 : Fin 9), (1 : Fin 9), (2 : Fin 9)), (3, 4, 5), (6, 7, 8), (0, 3, 6),
      (1, 4, 7), (2, 5, 8), (0, 4, 8), (2, 4, 6)] = pre ++ l :: post)
    (hpre : ∀ x ∈ pre, ¬ lineComplete g.board x) (hl : lineComplete g.board l) :
    evalWinner g = g.board l.1 ∧
    evalWinner ⟨cellsOf [2, 2, 2, 1, 1, 1, 0, 0, 0], 6⟩ = 2 := by
  refine ⟨?_, by decide⟩
  unfold evalWinner winLines
  rw [horder]
  exact evalWinnerLoop_first g.board pre post l hpre hl

/-- Witness for C11: the middle row and the right column are complete, the middle row
comes first. -/
theorem evalWinner_first_line_witness :
    evalWinner ⟨cellsOf [0, 0, 2, 2, 2, 2, 0, 0, 2], 5⟩ =
      (cellsOf [0, 0, 2, 2, 2, 2, 0, 0, 2]) 3 ∧
    evalWinner ⟨cellsOf [2, 2, 2, 1, 1, 1, 0, 0, 0], 6⟩ = 2 :=
  evalWinner_first_line ⟨cellsOf [0, 0, 2, 2, 2, 2, 0, 0, 2], 5⟩ [(0, 1, 2)]
    [(6, 7, 8), (0, 3, 6), (1, 4, 7), (2, 5, 8), (0, 4, 8), (2, 4, 6)] (3, 4, 5) rfl
    (fun x hx => by
      rw [List.mem_singleton] at hx
      subst hx
      decide)
    (by decide)

theorem evalWinner_eq_zero_iff (g : PhilosopherGame) :
    evalWinner g = 0 ↔ ∀ p, p ≠ 0 → ¬ hasLine g.board p := by
  unfold evalWinner
  rw [evalWinnerLoop_eq_zero]
  constructor
  · intro h p hp hline
    obtain ⟨l, hmem, h1, h2, h3⟩ := (hasLine_iff_mem _ _).1 hline
    exact h l hmem ⟨by rw [h1]; exact hp, by rw [h1, h2], by rw [h1, h3]⟩
  · intro h l hmem hc
    exact h (g.board l.1) hc.1
      ((hasLine_iff_mem _ _).2 ⟨l, hmem, rfl, hc.2.1.symm, hc.2.2.symm⟩)

theorem evalWinner_hasLine (g : PhilosopherGame) (h : evalWinner g ≠ 0) :
    hasLine g.board (evalWinner g) :=
  (hasLine_iff_mem _ _).2 (evalWinnerLoop_holds g.board winLines _ h rfl)

/-- C12: on every board whose cells are in {0,1,2}, `evalWinner` returns 0, 1 or 2 and
never 3 (DRAW); on a board without a uniformly filled line, fully occupied or not, it
returns 0 (NONE), as on `[1,2,1,2,1,2,2,1,2]`. -/
theorem evalWinner_range (g : PhilosopherGame) (h : ∀ c : Fin 9, g.board c ≤ 2) :
    evalWinner g ≤ 2 ∧ evalWinner g ≠ 3 ∧
    ((∀ c : Fin 9, g.board c ≠ 0) → (∀ p, p ≠ 0 → ¬ hasLine g.board p) →
      evalWinner g = 0) ∧
    evalWinner ⟨cellsOf [1, 2, 1, 2, 1, 2, 2, 1, 2], 9⟩ = 0 := by
  have hle := evalWinner_le_two g h
  exact ⟨hle, by omega, fun _ hno => (evalWinner_eq_zero_iff g).2 hno, by decide⟩

/-- Witness for C12: the fully occupied board `[1,2,1,2,1,2,2,1,2]`. -/
theorem evalWinner_range_witness :
    evalWinner ⟨cellsOf [1, 2, 1, 2, 1, 2, 2, 1, 2], 9⟩ ≤ 2 ∧
    evalWinner ⟨cellsOf [1, 2, 1, 2, 1, 2, 2, 1, 2], 9⟩ ≠ 3 ∧
    ((∀ c : Fin 9, (cellsOf [1, 2, 1, 2, 1, 2, 2, 1, 2]) c ≠ 0) →
      (∀ p, p ≠ 0 → ¬ hasLine (cellsOf [1, 2, 1, 2, 1, 2, 2, 1, 2]) p) →
      evalWinner ⟨cellsOf [1, 2, 1, 2, 1, 2, 2, 1, 2], 9⟩ = 0) ∧
    evalWinner ⟨cellsOf [1, 2, 1, 2, 1, 2, 2, 1, 2], 9⟩ = 0 :=
  evalWinner_range ⟨cellsOf [1, 2, 1, 2, 1, 2, 2, 1, 2], 9⟩ (by decide)

/-- On a board that results from writing `p` to a cell, a line of `p` and no line of
another non-empty value make `p` the winner. -/
theorem evalWinner_only_line (g : PhilosopherGame) (p : Nat) (hp : p ≠ 0)
    (hline : hasLine g.board p) (hother : ∀ q, q ≠ 0 → q ≠ p → ¬ hasLine g.board q) :
    evalWinner g = p := by
  have hne : evalWinner g ≠ 0 := fun h0 => (evalWinner_eq_zero_iff g).1 h0 p hp hline
  by_contra hq
  exact hother (evalWinner g) hne hq (evalWinner_hasLine g hne)

/-- C13: for every board (cells 0, 1 or 2, the only values that `initializeGame` and
`simulateMove` write, so in particular for the board of every state of every game), every
rule and player `p` in {1,2}: if `evalRule` returns MATCH(t) and writing `p` at cell `t`
yields a board on which some line is uniformly `p` and no line is uniformly the other
player's, then `evalWinner` on the resulting board returns `p`; the resulting board is
the one that `simulateMove` produces for an agent whose only rule is this one.  On
`[1,1,0,2,2,0,0,0,0]` the rule `[1,1,3,3,3,3,3,3,3] → 2` gives MATCH(2) and, for `p = 1`,
the winner PLAYER_ONE. -/
theorem evalWinner_after_match (g : PhilosopherGame) (r : PhilosopherRule) (p t : Nat)
    (hcells : ∀ c : Fin 9, g.board c ≤ 2) (hp : p = 1 ∨ p = 2) (ht : t ≤ 8)
    (hm : evalRule g r = some t)
    (hline : hasLine (Function.update g.board ⟨t, Nat.lt_succ_of_le ht⟩ p) p)
    (hother : ¬ hasLine (Function.update g.board ⟨t, Nat.lt_succ_of_le ht⟩ p) (3 - p)) :
    evalWinner ⟨Function.update g.board ⟨t, Nat.lt_succ_of_le ht⟩ p, g.turn⟩ = p ∧
    (∀ (name : String) (adapter : GeneticRuleAdapter),
      simulateMove g ⟨name, [r], adapter⟩ p =
        some (⟨Function.update g.board ⟨t, Nat.lt_succ_of_le ht⟩ p, g.turn⟩,
          ⟨name, [adapter.match_ r], adapter⟩)) ∧
    (∀ (g0 : PhilosopherGame) (p01 p02 : Philosopher) (k : Nat) (x : GameState),
      (gameStates (startState g0 p01 p02))[k]? = some x →
      ∀ (r1 : PhilosopherRule) (q t1 : Nat) (ht1 : t1 ≤ 8), q = 1 ∨ q = 2 →
        evalRule x.g r1 = some t1 →
        hasLine (Function.update x.g.board ⟨t1, Nat.lt_succ_of_le ht1⟩ q) q →
        ¬ hasLine (Function.update x.g.board ⟨t1, Nat.lt_succ_of_le ht1⟩ q) (3 - q) →
        evalWinner ⟨Function.update x.g.board ⟨t1, Nat.lt_succ_of_le ht1⟩ q, x.g.turn⟩ = q) ∧
    evalRule sampleGame ⟨cellsOf [1, 1, 3, 3, 3, 3, 3, 3, 3], 2, 0⟩ = some 2 ∧
    evalWinner ⟨Function.update sampleGame.board 2 1, sampleGame.turn⟩ = 1 := by
  have key : ∀ (board : Cells) (turn q : Nat) (c : Fin 9), (∀ d : Fin 9, board d ≤ 2) →
      q = 1 ∨ q = 2 → hasLine (Function.update board c q) q →
      ¬ hasLine (Function.update board c q) (3 - q) →
      evalWinner ⟨Function.update board c q, turn⟩ = q := by
    intro board turn q c hb hq hl ho
    apply evalWinner_only_line _ q (by omega) hl
    intro q1 hq1 hne hlq
    have hq2 : q1 ≤ 2 := by
      obtain ⟨l, _, h1, _, _⟩ := (hasLine_iff_mem _ _).1 hlq
      rw [← h1]
      simp only
      by_cases hc : l.1 = c
      · rw [hc, Function.update_same]; omega
      · rw [Function.update_noteq hc]; exact hb _
    have hq3 : q1 = 3 - q := by omega
    rw [hq3] at hlq
    exact ho hlq
  refine ⟨key g.board g.turn p _ hcells hp hline hother, ?_, ?_, by decide, by decide⟩
  · intro name adapter
    simp [simulateMove, simulateMoveLoop, hm, ht]
  · intro g0 p01 p02 k x hx r1 q t1 ht1 hq _ hl ho
    exact key x.g.board x.g.turn q _ (gameStates_cells g0 p01 p02 k x hx).2 hq hl ho

/-- Witness for C13: the scenario of the specification. -/
theorem evalWinner_after_match_witness :
    evalWinner ⟨Function.update sampleGame.board ⟨2, Nat.lt_succ_of_le (by decide)⟩ 1,
      sampleGame.turn⟩ = 1 :=
  (evalWinner_after_match sampleGame ⟨cellsOf [1, 1, 3, 3, 3, 3, 3, 3, 3], 2, 0⟩ 1 2
    (by decide) (Or.inl rfl) (by decide) (by decide) (by decide) (by decide)).1

/-! ## Frame of the rules -/

theorem weightOnly_default : weightOnly DefaultGeneticRuleAdapter :=
  fun _ => ⟨⟨rfl, rfl⟩, ⟨rfl, rfl⟩, ⟨rfl, rfl⟩⟩

theorem weightOnly_keepsTargets (ad : GeneticRuleAdapter) (h : weightOnly ad) :
    keepsTargets ad :=
  fun r => ⟨(h r).1.2, (h r).2.1.2, (h r).2.2.2⟩

theorem sameShape_refl (rules : List PhilosopherRule) : sameShape rules rules :=
  List.forall₂_same.2 fun _ _ => ⟨rfl, rfl⟩

theorem sameShape_trans (a b c : List PhilosopherRule) (h1 : sameShape a b)
    (h2 : sameShape b c) : sameShape a c := by
  unfold sameShape at h1 h2 ⊢
  induction h1 generalizing c with
  | nil => cases h2; exact List.Forall₂.nil
  | cons hr _ ih =>
    cases h2 with
    | cons hr2 hrest2 =>
      exact List.Forall₂.cons ⟨hr2.1.trans hr.1, hr2.2.trans hr.2⟩ (ih _ hrest2)

theorem sameShape_symm (a b : List PhilosopherRule) (h : sameShape a b) : sameShape b a := by
  unfold sameShape at h ⊢
  induction h with
  | nil => exact List.Forall₂.nil
  | cons hr _ ih => exact List.Forall₂.cons ⟨hr.1.symm, hr.2.symm⟩ ih

theorem sameShape_index (a b : List PhilosopherRule) (h : sameShape a b) :
    b.length = a.length ∧
    ∀ (i : Nat) (r r1 : PhilosopherRule), a[i]? = some r → b[i]? = some r1 →
      r1.value = r.value ∧ r1.result = r.result := by
  unfold sameShape at h
  induction h with
  | nil => exact ⟨rfl, fun i r r1 hr => by simp at hr⟩
  | cons hr _ ih =>
    refine ⟨by simp [ih.1], ?_⟩
    intro i r r1 ha hb
    cases i with
    | zero =>
      simp only [List.getElem?_cons_zero, Option.some.injEq] at ha hb
      subst ha; subst hb; exact hr
    | succ k =>
      simp only [List.getElem?_cons_succ] at ha hb
      exact ih.2 k r r1 ha hb

theorem simulateMove_sameShape (g : PhilosopherGame) (p : Philosopher) (pv : Nat)
    (g1 : PhilosopherGame) (p1 : Philosopher) (hw : weightOnly p.adapter)
    (h : simulateMove g p pv = some (g1, p1)) :
    p1.adapter = p.adapter ∧ p1.name = p.name ∧ sameShape p.rules p1.rules := by
  unfold simulateMove at h
  cases hloop : simulateMoveLoop p.adapter pv g p.rules with
  | none => simp [hloop] at h
  | some out =>
    obtain ⟨g2, rules2⟩ := out
    rw [hloop] at h
    simp only [Option.map_some', Option.some.injEq, Prod.mk.injEq] at h
    rw [← h.2]
    refine ⟨rfl, rfl, ?_⟩
    have hall := simulateMoveLoop_rules p.adapter pv g p.rules g2 rules2 hloop
    unfold sameShape
    refine List.Forall₂.imp ?_ hall
    intro r r1 hr
    rcases hr with h | h | h | h
    · rw [h]; exact ⟨rfl, rfl⟩
    · rw [h]; exact (hw r).1
    · rw [h]; exact (hw r).2.1
    · rw [h]; exact (hw r).2.2

/-- Along a game the two agents keep their adapters and the shape of their rules. -/
theorem gameStates_sameShape (s : GameState) (hw1 : weightOnly s.p01.adapter)
    (hw2 : weightOnly s.p02.adapter) (k : Nat) (x : GameState)
    (hx : (gameStates s)[k]? = some x) :
    x.p01.adapter = s.p01.adapter ∧ x.p02.adapter = s.p02.adapter ∧
      sameShape s.p01.rules x.p01.rules ∧ sameShape s.p02.rules x.p02.rules := by
  refine gameTrace_induction
    (fun _ x => x.p01.adapter = s.p01.adapter ∧ x.p02.adapter = s.p02.adapter ∧
      sameShape s.p01.rules x.p01.rules ∧ sameShape s.p02.rules x.p02.rules) 10 _
    ⟨rfl, rfl, sameShape_refl _, sameShape_refl _⟩ ?_ k x hx
  intro _ x x1 hP _ hb
  obtain ⟨ha1, ha2, hs1, hs2⟩ := hP
  obtain ⟨_, hc | hc⟩ := turnBody_cases x x1 hb
  · obtain ⟨had, _, hsh⟩ := simulateMove_sameShape _ _ _ _ _ (by rw [ha1]; exact hw1) hc.2.1
    exact ⟨by rw [had, ha1], by rw [hc.2.2, ha2], sameShape_trans _ _ _ hs1 hsh,
      by rw [hc.2.2]; exact hs2⟩
  · obtain ⟨had, _, hsh⟩ := simulateMove_sameShape _ _ _ _ _ (by rw [ha2]; exact hw2) hc.2.1
    exact ⟨by rw [hc.2.2, ha1], by rw [had, ha2], by rw [hc.2.2]; exact hs1,
      sameShape_trans _ _ _ hs2 hsh⟩

/-- C14: with adapters that change only weights, as `DefaultGeneticRuleAdapter` does,
neither `simulateMove` nor `simulateGame` adds, removes or reorders rules or changes a
pattern or target: after a call of `simulateMove`, in every state of a game and in the
state in which `simulateGame` returns, each agent's rule list has the length it had
before and the rule at every index has the same nine pattern cells and the same target
as before. -/
theorem rules_frame (g : PhilosopherGame) (p01 p02 : Philosopher)
    (hw1 : weightOnly p01.adapter) (hw2 : weightOnly p02.adapter) :
    (∀ (pv : Nat) (g1 : PhilosopherGame) (p1 : Philosopher),
      simulateMove g p01 pv = some (g1, p1) →
      p1.rules.length = p01.rules.length ∧
      ∀ (i : Nat) (r r1 : PhilosopherRule), p01.rules[i]? = some r → p1.rules[i]? = some r1 →
        r1.value = r.value ∧ r1.result = r.result) ∧
    (∀ (k : Nat) (x : GameState), (gameStates ⟨0, g, p01, p02⟩)[k]? = some x →
      (x.p01.rules.length = p01.rules.length ∧
        ∀ (i : Nat) (r r1 : PhilosopherRule), p01.rules[i]? = some r →
          x.p01.rules[i]? = some r1 → r1.value = r.value ∧ r1.result = r.result) ∧
      (x.p02.rules.length = p02.rules.length ∧
        ∀ (i : Nat) (r r1 : PhilosopherRule), p02.rules[i]? = some r →
          x.p02.rules[i]? = some r1 → r1.value = r.value ∧ r1.result = r.result)) ∧
    (∀ sf : GameState, simulateGame g p01 p02 = Run.returned sf →
      sameShape p01.rules sf.p01.rules ∧ sameShape p02.rules sf.p02.rules) := by
  refine ⟨?_, ?_, ?_⟩
  · intro pv g1 p1 h
    exact sameShape_index _ _ (simulateMove_sameShape g p01 pv g1 p1 hw1 h).2.2
  · intro k x hx
    obtain ⟨_, _, h1, h2⟩ := gameStates_sameShape ⟨0, g, p01, p02⟩ hw1 hw2 k x hx
    exact ⟨sameShape_index _ _ h1, sameShape_index _ _ h2⟩
  · intro sf hret
    obtain ⟨x, hlast, hrun⟩ := simulateGameLoop_trace 10 ⟨0, g, p01, p02⟩
    have hx : x = sf := by
      unfold simulateGame at hret
      rcases hrun with h | h | h
      · rw [hret] at h; simpa using h.1.symm
      · rw [hret] at h; simp at h
      · rw [hret] at h; simp at h
    subst hx
    have hidx : (gameStates ⟨0, g, p01, p02⟩)[(gameStates ⟨0, g, p01, p02⟩).length - 1]? =
        some x := by
      rw [← List.getLast?_eq_getElem?]; exact hlast
    obtain ⟨_, _, h1, h2⟩ := gameStates_sameShape ⟨0, g, p01, p02⟩ hw1 hw2 _ x hidx
    exact ⟨h1, h2⟩

/-- Witness for C14: `eagerAgent` against `silentAgent`, both with the default
adapter. -/
theorem rules_frame_witness :
    ∃ sf, simulateGame (initializeGame sampleGame) eagerAgent silentAgent = Run.returned sf ∧
      sameShape eagerAgent.rules sf.p01.rules ∧ sameShape silentAgent.rules sf.p02.rules := by
  have hsome : ((simulateGame (initializeGame sampleGame) eagerAgent silentAgent).final).isSome
      = true := by decide
  obtain ⟨sf, hsf⟩ := Option.isSome_iff_exists.1 hsome
  have hret : simulateGame (initializeGame sampleGame) eagerAgent silentAgent =
      Run.returned sf := by
    cases hrun : simulateGame (initializeGame sampleGame) eagerAgent silentAgent with
    | returned s => rw [hrun] at hsf; simp [Run.final] at hsf; rw [hsf]
    | fault => rw [hrun] at hsf; simp [Run.final] at hsf
    | outOfFuel => rw [hrun] at hsf; simp [Run.final] at hsf
  exact ⟨sf, hret, (rules_frame (initializeGame sampleGame) eagerAgent silentAgent
    weightOnly_default weightOnly_default).2.2 sf hret⟩

/-! ## Generated and parsed rules -/

theorem inititializeRandomRule_spec (src : Nat → Nat) (pos : Nat) (r0 : PhilosopherRule) :
    wellFormed (inititializeRandomRule src pos r0).1 ∧
      (inititializeRandomRule src pos r0).1.w = 0 ∧
      (inititializeRandomRule src pos r0).2 = pos + 10 := by
  have h4 : ∀ n, src n % 4 % 256 ≤ 3 := by
    intro n
    have := Nat.mod_lt (src n) (by decide : 4 > 0)
    omega
  have h9 : ∀ n, src n % 9 % 256 ≤ 8 := by
    intro n
    have := Nat.mod_lt (src n) (by decide : 9 > 0)
    omega
  refine ⟨⟨?_, ?_⟩, rfl, ?_⟩
  · exact h9 _
  · intro i
    unfold inititializeRandomRule
    rw [finRange9]
    simp only [List.foldl_cons, List.foldl_nil]
    fin_cases i <;> simp [Function.update] <;> exact h4 _
  · unfold inititializeRandomRule
    rw [finRange9]
    rfl

theorem randomRulesLoop_spec (src : Nat → Nat) (n pos : Nat) :
    (randomRulesLoop src n pos).1.length = n ∧
      ∀ r ∈ (randomRulesLoop src n pos).1, wellFormed r ∧ r.w = 0 := by
  induction n generalizing pos with
  | zero => exact ⟨rfl, fun r hr => by simp [randomRulesLoop] at hr⟩
  | succ n ih =>
    simp only [randomRulesLoop, List.length_cons, List.mem_cons]
    refine ⟨by rw [(ih _).1], ?_⟩
    rintro r (rfl | hr)
    · exact ⟨(inititializeRandomRule_spec src pos zeroRule).1,
        (inititializeRandomRule_spec src pos zeroRule).2.1⟩
    · exact (ih _).2 r hr

theorem parseRule_some (parseFloat : List Nat → ℚ × Bool) (line f0 f2 bs : List Nat)
    (b : Nat) (more : List (List Nat))
    (hs : split 9 line = f0 :: (b :: bs) :: f2 :: more) (h9 : 9 ≤ f0.length) :
    ∃ r, parseRule parseFloat line = some r ∧
      (∀ i : Fin 9, r.value i = (f0.getD i.val 0 + 256 - 48) % 256) ∧
      r.result = (b + 256 - 48) % 256 ∧ r.w = (parseFloat f2).1 := by
  unfold parseRule
  simp only [hs]
  simp [h9]
  intro i
  rw [List.getElem?_eq_getElem (by omega), Option.getD_some]

/-- C15 (amended): every rule created by `inititializeRandomRule`, for any outcomes of
the random source, has its target in [0,8], its nine pattern cells in {0,1,2,3} and
weight 0, and `initializeRandomRules(p, count)` with `count ≥ 0` yields exactly `count`
such rules.  A rule returned by `parseRule` for a line of bytes has its target in [0,8]
exactly when the target character of the line is one of `0`..`8`, and a pattern cell in
{0,1,2,3} exactly when the pattern character is one of `0`..`3`. -/
theorem rules_wellFormed (src : Nat → Nat) (pos : Nat) :
    (∀ r0 : PhilosopherRule, wellFormed (inititializeRandomRule src pos r0).1 ∧
      (inititializeRandomRule src pos r0).1.w = 0) ∧
    (∀ (p : Philosopher) (count : Int), 0 ≤ count →
      ∃ p1 pos1, initializeRandomRules src pos p count = some (p1, pos1) ∧
        (p1.rules.length : Int) = count ∧ ∀ r ∈ p1.rules, wellFormed r ∧ r.w = 0) ∧
    (∀ (parseFloat : List Nat → ℚ × Bool) (line f0 f2 bs : List Nat) (b : Nat)
      (more : List (List Nat)), split 9 line = f0 :: (b :: bs) :: f2 :: more →
      9 ≤ f0.length → b < 256 → (∀ c ∈ f0, c < 256) →
      ∃ r, parseRule parseFloat line = some r ∧
        (r.result ≤ 8 ↔ 48 ≤ b ∧ b ≤ 56) ∧
        ∀ i : Fin 9, (r.value i ≤ 3 ↔ 48 ≤ f0.getD i.val 0 ∧ f0.getD i.val 0 ≤ 51)) := by
  refine ⟨fun r0 => ⟨(inititializeRandomRule_spec src pos r0).1,
    (inititializeRandomRule_spec src pos r0).2.1⟩, ?_, ?_⟩
  · intro p count hcount
    refine ⟨⟨p.name, (randomRulesLoop src count.toNat pos).1, p.adapter⟩,
      (randomRulesLoop src count.toNat pos).2,
      by simp [initializeRandomRules, Int.not_lt.2 hcount], ?_, ?_⟩
    · simp only [(randomRulesLoop_spec src count.toNat pos).1]
      exact Int.toNat_of_nonneg hcount
    · exact (randomRulesLoop_spec src count.toNat pos).2
  · intro parseFloat line f0 f2 bs b more hs h9 hb hf0
    obtain ⟨r, hr, hval, hres, _⟩ := parseRule_some parseFloat line f0 f2 bs b more hs h9
    refine ⟨r, hr, by rw [hres]; omega, fun i => ?_⟩
    have hlt : f0.getD i.val 0 < 256 := by
      rw [List.getD_eq_getElem?_getD, List.getElem?_eq_getElem (by omega), Option.getD_some]
      exact hf0 _ (List.getElem_mem _)
    rw [hval i]; omega

/-- Witness for C15: three random rules from the source that yields 0, 1, 2, … -/
theorem rules_wellFormed_witness :
    ∃ p1 pos1, initializeRandomRules (fun n => n) 0 silentAgent 3 = some (p1, pos1) ∧
      (p1.rules.length : Int) = 3 ∧ ∀ r ∈ p1.rules, wellFormed r ∧ r.w = 0 :=
  (rules_wellFormed (fun n => n) 0).2.1 silentAgent 3 (by decide)

/-- Counterexample to C15: `parseRule` accepts the line `123456789<tab>:<tab>0` and
returns a rule whose ninth pattern cell is 9 and whose target is 10; and
`initializeRandomRules` with `count = -1` faults instead of yielding rules. -/
theorem parseRule_not_wellFormed :
    (parseRule parseZero (ascii "123456789\t:\t0")).map
      (fun r => (r.value 8, r.result)) = some (9, 10) ∧
    (parseRule parseZero (ascii "123456789\t:\t0")).map
      (fun r => decide (wellFormed r)) = some false ∧
    (initializeRandomRules (fun n => n) 0 silentAgent (-1)).isNone = true := by
  decide

/-! ## Full boards, winners and marks -/

/-- A scan without a match, for an agent with targets in [0,8]: the game is returned as
it was and every rule has received its `unmatch` or `invalid` call. -/
theorem simulateMove_pass (g : PhilosopherGame) (p : Philosopher) (pv : Nat)
    (hr : ∀ r ∈ p.rules, r.result ≤ 8) (hno : ∀ r ∈ p.rules, isMatch g r = false) :
    simulateMove g p pv =
      some (g, ⟨p.name, p.rules.map (passFeedback p.adapter g), p.adapter⟩) := by
  have hcase : ∀ r ∈ p.rules, evalRule g r = some 128 ∨ evalRule g r = some 129 := by
    intro r hmem
    rcases evalRule_cases g r (hr r hmem) with h | h | h
    · exact Or.inl h
    · exact Or.inr h
    · have := (isMatch_iff g r).2 ⟨_, hr r hmem, h⟩
      rw [hno r hmem] at this
      exact absurd this (by decide)
  obtain ⟨g1, p1, hrun, hname, had, hturn, hlen, hboard, hidx⟩ := simulateMove_spec g p pv hr
  have hbefore : ∀ i, noMatchBefore g p.rules i := fun i j x _ hx =>
    hno x (List.getElem?_mem hx)
  have hg : g1 = g := by
    cases g1; cases g
    simp only [PhilosopherGame.mk.injEq]
    exact ⟨hboard hno, hturn⟩
  have hrules : p1.rules = p.rules.map (passFeedback p.adapter g) := by
    apply List.ext_getElem?
    intro i
    cases hget : p.rules[i]? with
    | none =>
      have h1 : p.rules.length ≤ i := List.getElem?_eq_none_iff.1 hget
      rw [List.getElem?_map, hget, List.getElem?_eq_none_iff.2 (by omega)]
      rfl
    | some r =>
      obtain ⟨r1, hr1, _, hB, hC, _⟩ := hidx i r hget
      rw [List.getElem?_map, hget, hr1]
      simp only [Option.map_some', Option.some.injEq, passFeedback]
      rcases hcase r (List.getElem?_mem hget) with h | h
      · rw [if_pos h]; exact hB h (hbefore i)
      · rw [if_neg (by rw [h]; decide)]; exact hC h (hbefore i)
  rw [hrun, hg]
  cases p1
  simp only [Option.some.injEq, Prod.mk.injEq, true_and, Philosopher.mk.injEq]
  exact ⟨hname, hrules, had⟩

/-- On a board without an empty cell no rule evaluates to MATCH. -/
theorem isMatch_full_board (g : PhilosopherGame) (r : PhilosopherRule)
    (hfull : ∀ c : Fin 9, g.board c ≠ 0) : isMatch g r = false := by
  by_contra hm
  obtain ⟨t, ht, he⟩ := (isMatch_iff g r).1 (by simpa using hm)
  obtain ⟨_, h9, hb⟩ := evalRule_match_result g r t ht he
  exact hfull _ hb

theorem countCells_eq_zero (board : Cells) (p : Nat) (h : countCells board p = 0)
    (c : Fin 9) : board c ≠ p := by
  rw [countCells_eq_sum] at h
  intro hc
  have := (Finset.sum_eq_zero_iff.1 h) c (Finset.mem_univ c)
  rw [if_pos hc] at this
  exact absurd this (by decide)

/-- One executed turn leaves the board as it was or writes the acting mark, 1 on an odd
turn and 2 on an even turn, to one empty cell. -/
theorem turnBody_board (x x1 : GameState) (hg : loopGuard x = true)
    (hb : turnBody x = some x1) :
    x1.g.turn = x.g.turn + 1 ∧
    (x1.g.board = x.g.board ∨
      ∃ c : Fin 9, x.g.board c = 0 ∧
        x1.g.board = Function.update x.g.board c (if x1.g.turn % 2 = 1 then 1 else 2)) := by
  have hlt := ((loopGuard_iff x).1 hg).2
  have hmod : (x.g.turn + 1) % 256 = x.g.turn + 1 := Nat.mod_eq_of_lt (by omega)
  have hturn : x1.g.turn = x.g.turn + 1 := by rw [turnBody_turn x x1 hb, hmod]
  refine ⟨hturn, ?_⟩
  obtain ⟨_, hc | hc⟩ := turnBody_cases x x1 hb
  · have hodd : x1.g.turn % 2 = 1 := by rw [hturn, ← hmod]; exact hc.1
    rw [if_pos hodd]
    exact (simulateMove_board _ _ _ _ _ hc.2.1).2
  · have heven : ¬ x1.g.turn % 2 = 1 := by
      have := hc.1
      rw [hmod] at this
      rw [hturn]; omega
    rw [if_neg heven]
    exact (simulateMove_board _ _ _ _ _ hc.2.1).2

/-- In a game from an initialized game whose first `k` turns each changed the board, the
state after turn `k` exists and has `9 - k` empty cells. -/
theorem gameStates_empty_cells (g0 : PhilosopherGame) (p01 p02 : Philosopher) (k : Nat)
    (hk : k ≤ 9) (hmarks : ∀ j < k, placedMark (startState g0 p01 p02) j = true) :
    ∃ x, (gameStates (startState g0 p01 p02))[k]? = some x ∧
      countCells x.g.board 0 + k = 9 := by
  induction k with
  | zero =>
    refine ⟨startState g0 p01 p02, by simp [gameStates], ?_⟩
    rw [startState_eq]
    show countCells (fun _ => 0) 0 + 0 = 9
    decide
  | succ k ih =>
    obtain ⟨x, hx, hcount⟩ := ih (by omega) (fun j hj => hmarks j (by omega))
    have hm := hmarks k (by omega)
    unfold placedMark at hm
    rw [hx] at hm
    cases hx1 : (gameStates (startState g0 p01 p02))[k + 1]? with
    | none => rw [hx1] at hm; simp at hm
    | some x1 =>
      rw [hx1] at hm
      simp only [decide_eq_true_eq] at hm
      refine ⟨x1, rfl, ?_⟩
      obtain ⟨hg, hb⟩ := gameTrace_step 10 _ k x x1 hx hx1
      rcases (turnBody_board x x1 hg hb).2 with hsame | ⟨c, hc0, hupd⟩
      · exact absurd hsame hm
      · have hcu := countCells_update x.g.board c (if x1.g.turn % 2 = 1 then 1 else 2) 0
        rw [← hupd, hc0] at hcu
        have hpv : ¬ ((if x1.g.turn % 2 = 1 then 1 else 2) = 0) := by
          split <;> decide
        rw [if_pos rfl, if_neg hpv] at hcu
        omega

/-- C17: on a board with no EMPTY cell, for an agent whose rules have targets in [0,8],
no rule evaluates to MATCH and `simulateMove` returns the game unchanged, every rule
having received `unmatch` or `invalid` and none `match`.  Consequently, in a game from an
initialized game (agents with targets in [0,8] and adapters that leave targets alone) in
which each of the first nine turns placed a mark and the ninth produced no winner, the
board is full after turn 9, the tenth turn is played and leaves the board as it was. -/
theorem full_board_moveless (g : PhilosopherGame) (p : Philosopher) (pv : Nat)
    (hfull : ∀ c : Fin 9, g.board c ≠ 0) (hr : targetsInRange p) :
    (∀ r ∈ p.rules, isMatch g r = false) ∧
    simulateMove g p pv =
      some (g, ⟨p.name, p.rules.map (passFeedback p.adapter g), p.adapter⟩) ∧
    (∀ (g0 : PhilosopherGame) (p01 p02 : Philosopher),
      targetsInRange p01 → targetsInRange p02 →
      keepsTargets p01.adapter → keepsTargets p02.adapter →
      (∀ j < 9, placedMark (startState g0 p01 p02) j = true) →
      ((gameStates (startState g0 p01 p02))[9]?).map (fun s => evalWinner s.g) = some 0 →
      ∃ s9 s10, (gameStates (startState g0 p01 p02))[9]? = some s9 ∧
        (gameStates (startState g0 p01 p02))[10]? = some s10 ∧
        (∀ c : Fin 9, s9.g.board c ≠ 0) ∧ s10.g.turn = 10 ∧ s10.g.board = s9.g.board ∧
        s10.p01 = s9.p01 ∧
        s10.p02.rules = s9.p02.rules.map (passFeedback s9.p02.adapter ⟨s9.g.board, 10⟩)) := by
  have hno : ∀ (g : PhilosopherGame) (p : Philosopher), (∀ c : Fin 9, g.board c ≠ 0) →
      ∀ r ∈ p.rules, isMatch g r = false :=
    fun g _ hfull r _ => isMatch_full_board g r hfull
  refine ⟨hno g p hfull, simulateMove_pass g p pv hr (hno g p hfull), ?_⟩
  intro g0 p01 p02 h1 h2 hk1 hk2 hmarks hnowin
  obtain ⟨s9, hs9, hcount⟩ := gameStates_empty_cells g0 p01 p02 9 (Nat.le_refl 9) hmarks
  have hfull9 : ∀ c : Fin 9, s9.g.board c ≠ 0 :=
    countCells_eq_zero s9.g.board 0 (by omega)
  rw [hs9] at hnowin
  simp only [Option.map_some', Option.some.injEq] at hnowin
  have hturn9 : s9.g.turn = 9 := by
    have := gameStates_turn _ 9 s9 hs9
    rw [startState_eq] at this
    simpa using this
  have hguard : loopGuard s9 = true :=
    (loopGuard_iff_evalWinner g0 p01 p02 9 s9 hs9).2 ⟨hnowin, by omega⟩
  obtain ⟨_, _, ht1, ht2⟩ := gameStates_agents (startState g0 p01 p02) hk1 hk2 h1 h2 9 s9 hs9
  obtain ⟨s10, hb⟩ := turnBody_isSome s9 ht1 ht2
  have hs10 := gameTrace_next 10 _ 9 s9 s10 (by decide) hs9 hguard hb
  have hturn10 : s10.g.turn = 10 := by
    rw [(turnBody_board s9 s10 hguard hb).1, hturn9]
  obtain ⟨_, hc | hc⟩ := turnBody_cases s9 s10 hb
  · rw [hturn9] at hc
    exact absurd hc.1 (by decide)
  · rw [hturn9] at hc
    have hpass := simulateMove_pass ⟨s9.g.board, 10⟩ s9.p02 2 ht2
      (hno ⟨s9.g.board, 10⟩ s9.p02 hfull9)
    have hmove : simulateMove ⟨s9.g.board, 10⟩ s9.p02 2 = some (s10.g, s10.p02) := hc.2.1
    rw [hpass] at hmove
    simp only [Option.some.injEq, Prod.mk.injEq] at hmove
    refine ⟨s9, s10, hs9, hs10, hfull9, hturn10, by rw [← hmove.1], hc.2.2, by rw [← hmove.2]⟩

/-- Witness for C17: the board `[1,2,1,1,2,2,2,1,1]` is full, and in the game of
`drawAgentOne` against `drawAgentTwo` each of the first nine turns places a mark without
a winner. -/
theorem full_board_moveless_witness :
    simulateMove ⟨cellsOf [1, 2, 1, 1, 2, 2, 2, 1, 1], 10⟩ drawAgentTwo 2 =
      some (⟨cellsOf [1, 2, 1, 1, 2, 2, 2, 1, 1], 10⟩, ⟨drawAgentTwo.name,
        drawAgentTwo.rules.map (passFeedback drawAgentTwo.adapter
          ⟨cellsOf [1, 2, 1, 1, 2, 2, 2, 1, 1], 10⟩), drawAgentTwo.adapter⟩) ∧
    ∃ s9 s10, (gameStates (startState sampleGame drawAgentOne drawAgentTwo))[9]? = some s9 ∧
      (gameStates (startState sampleGame drawAgentOne drawAgentTwo))[10]? = some s10 ∧
      (∀ c : Fin 9, s9.g.board c ≠ 0) ∧ s10.g.turn = 10 ∧ s10.g.board = s9.g.board ∧
      s10.p01 = s9.p01 ∧
      s10.p02.rules = s9.p02.rules.map (passFeedback s9.p02.adapter ⟨s9.g.board, 10⟩) :=
  ⟨(full_board_moveless ⟨cellsOf [1, 2, 1, 1, 2, 2, 2, 1, 1], 10⟩ drawAgentTwo 2
      (by decide) (by decide)).2.1,
    (full_board_moveless ⟨cellsOf [1, 2, 1, 1, 2, 2, 2, 1, 1], 10⟩ drawAgentTwo 2
      (by decide) (by decide)).2.2 sampleGame drawAgentOne drawAgentTwo (by decide) (by decide)
      keepsTargets_default keepsTargets_default (by decide) (by decide)⟩

/-- On a board without a complete line, a line that is complete after writing `pv` to
one cell is a line of `pv`. -/
theorem hasLine_update (board : Cells) (c : Fin 9) (pv q : Nat) (hq : q ≠ 0)
    (hno : ∀ p, p ≠ 0 → ¬ hasLine board p) (h : hasLine (Function.update board c pv) q) :
    q = pv := by
  by_contra hne
  obtain ⟨l, hmem, h1, h2, h3⟩ := (hasLine_iff_mem _ _).1 h
  have hcell : ∀ d : Fin 9, Function.update board c pv d = q → board d = q := by
    intro d hd
    by_cases hdc : d = c
    · rw [hdc, Function.update_same] at hd
      exact absurd hd.symm hne
    · rwa [Function.update_noteq hdc] at hd
  exact hno q hq ((hasLine_iff_mem _ _).2 ⟨l, hmem, hcell _ h1, hcell _ h2, hcell _ h3⟩)

/-- In a game from an initialized game, a state holds complete lines of at most the
player who acted in the turn that produced it. -/
theorem gameStates_lines (g0 : PhilosopherGame) (p01 p02 : Philosopher) (k : Nat)
    (x : GameState) (hx : (gameStates (startState g0 p01 p02))[k]? = some x) :
    ∀ q, q ≠ 0 → hasLine x.g.board q →
      1 ≤ k ∧ q = (if x.g.turn % 2 = 1 then 1 else 2) := by
  intro q hq hline
  cases k with
  | zero =>
    have hx0 : x = startState g0 p01 p02 := by
      simpa [gameStates] using hx.symm
    rw [hx0, startState_eq] at hline
    exact absurd hline (by
      unfold hasLine holds
      simp only
      omega)
  | succ k =>
    have hlt : k < (gameStates (startState g0 p01 p02)).length := by
      rcases Nat.lt_or_ge (k + 1) (gameStates (startState g0 p01 p02)).length with h | h
      · omega
      · rw [List.getElem?_eq_none_iff.2 h] at hx; simp at hx
    have hy : (gameStates (startState g0 p01 p02))[k]? =
        some ((gameStates (startState g0 p01 p02))[k]) := List.getElem?_eq_getElem hlt
    obtain ⟨hg, hb⟩ := gameTrace_step 10 _ k _ x hy hx
    have hnone := (evalWinner_eq_zero_iff _).1
      ((loopGuard_iff_evalWinner g0 p01 p02 k _ hy).1 hg).1
    refine ⟨by omega, ?_⟩
    rcases (turnBody_board _ x hg hb).2 with hsame | ⟨c, _, hupd⟩
    · rw [hsame] at hline
      exact absurd hline (hnone q hq)
    · rw [hupd] at hline
      exact hasLine_update _ c _ q hq hnone hline

/-- C18: in every state of a game from an initialized game the two players do not both
hold a complete line, and whenever `evalWinner` of the state returns a player, the state
is the result of a turn and the player is the one who acted in it: PLAYER_ONE when the
turn counter is odd, PLAYER_TWO when it is even. -/
theorem simulateGame_winner_acted (g0 : PhilosopherGame) (p01 p02 : Philosopher) (k : Nat)
    (x : GameState) (hx : (gameStates (startState g0 p01 p02))[k]? = some x) :
    ¬ (hasLine x.g.board 1 ∧ hasLine x.g.board 2) ∧
    (evalWinner x.g ≠ 0 →
      1 ≤ k ∧ x.g.turn = k ∧ evalWinner x.g = (if x.g.turn % 2 = 1 then 1 else 2)) := by
  have hlines := gameStates_lines g0 p01 p02 k x hx
  constructor
  · rintro ⟨h1, h2⟩
    have e1 := (hlines 1 (by decide) h1).2
    have e2 := (hlines 2 (by decide) h2).2
    omega
  · intro hw
    have hturn : x.g.turn = k := by
      have := gameStates_turn _ k x hx
      rw [startState_eq] at this
      simpa using this
    obtain ⟨hk, hq⟩ := hlines (evalWinner x.g) hw (evalWinner_hasLine x.g hw)
    exact ⟨hk, hturn, hq⟩

/-- Witness for C18: `columnAgent` completes the left column in turn 5 against
`drawAgentTwo`. -/
theorem simulateGame_winner_acted_witness :
    ∃ x, (gameStates (startState sampleGame columnAgent drawAgentTwo))[5]? = some x ∧
      evalWinner x.g = 1 ∧
      ¬ (hasLine x.g.board 1 ∧ hasLine x.g.board 2) ∧
      (evalWinner x.g ≠ 0 →
        1 ≤ 5 ∧ x.g.turn = 5 ∧ evalWinner x.g = (if x.g.turn % 2 = 1 then 1 else 2)) := by
  have hsome : ((gameStates (startState sampleGame columnAgent drawAgentTwo))[5]?).map
      (fun s => evalWinner s.g) = some 1 := by decide
  cases hx : (gameStates (startState sampleGame columnAgent drawAgentTwo))[5]? with
  | none => rw [hx] at hsome; simp at hsome
  | some x =>
    rw [hx] at hsome
    exact ⟨x, rfl, by simpa using hsome,
      simulateGame_winner_acted sampleGame columnAgent drawAgentTwo 5 x hx⟩

theorem occupiedCells_add (board : Cells) : occupiedCells board + countCells board 0 = 9 := by
  unfold occupiedCells countCells
  rw [length_filter_eq_sum, length_filter_eq_sum, ← List.sum_map_add]
  have h : ∀ i : Fin 9, ((if board i ≠ 0 then 1 else 0) + if board i = 0 then 1 else 0) = 1 := by
    intro i
    by_cases hi : board i = 0 <;> simp [hi]
  simp only [h]
  rw [finRange9]
  rfl

/-- In a game from an initialized game the number of occupied cells never exceeds the
turn counter. -/
theorem gameStates_occupied (g0 : PhilosopherGame) (p01 p02 : Philosopher) (k : Nat)
    (x : GameState) (hx : (gameStates (startState g0 p01 p02))[k]? = some x) :
    occupiedCells x.g.board ≤ x.g.turn := by
  refine gameTrace_induction (fun _ x => occupiedCells x.g.board ≤ x.g.turn) 10 _ ?_ ?_ k x hx
  · rw [startState_eq]
    show occupiedCells (fun _ => 0) ≤ 0
    decide
  · intro _ x x1 hP hg hb
    obtain ⟨hturn, hsame | ⟨c, hc0, hupd⟩⟩ := turnBody_board x x1 hg hb
    · rw [hsame, hturn]; omega
    · have hcu := countCells_update x.g.board c (if x1.g.turn % 2 = 1 then 1 else 2) 0
      rw [← hupd, hc0] at hcu
      have hpv : ¬ ((if x1.g.turn % 2 = 1 then 1 else 2) = 0) := by
        split <;> decide
      rw [if_pos rfl, if_neg hpv] at hcu
      have h1 := occupiedCells_add x1.g.board
      have h0 := occupiedCells_add x.g.board
      rw [hturn]; omega

/-- C19: `simulateMove` never overwrites or erases a mark.  For a mark `pv` in {1,2} and
an agent whose rules have targets in [0,8] the call returns; every cell that was not
empty holds the value it held, at most one cell changes, and a changed cell was EMPTY and
holds `pv`.  Hence in every state of a game from an initialized game, for every pair of
agents, all cells are in {0,1,2} and the number of occupied cells is at most the turn
counter. -/
theorem simulateMove_keeps_marks (g : PhilosopherGame) (p : Philosopher) (pv : Nat)
    (hpv : pv = 1 ∨ pv = 2) (hr : targetsInRange p) :
    (∃ g1 p1, simulateMove g p pv = some (g1, p1) ∧
      (∀ c : Fin 9, g.board c ≠ 0 → g1.board c = g.board c) ∧
      (∀ c c1 : Fin 9, g1.board c ≠ g.board c → g1.board c1 ≠ g.board c1 → c = c1) ∧
      (∀ c : Fin 9, g1.board c ≠ g.board c →
        g.board c = 0 ∧ g1.board c = pv ∧ g1.board c ≠ 0)) ∧
    (∀ (g0 : PhilosopherGame) (p01 p02 : Philosopher) (k : Nat) (x : GameState),
      (gameStates (startState g0 p01 p02))[k]? = some x →
      (∀ c : Fin 9, x.g.board c = 0 ∨ x.g.board c = 1 ∨ x.g.board c = 2) ∧
      occupiedCells x.g.board ≤ x.g.turn) := by
  constructor
  · obtain ⟨g1, p1, hrun, _⟩ := simulateMove_spec g p pv hr
    refine ⟨g1, p1, hrun, ?_⟩
    rcases (simulateMove_board g p pv g1 p1 hrun).2 with hsame | ⟨c0, hc0, hupd⟩
    · rw [hsame]
      exact ⟨fun _ _ => rfl, fun c _ h => absurd rfl h, fun c h => absurd rfl h⟩
    · have hchanged : ∀ c : Fin 9, g1.board c ≠ g.board c → c = c0 := by
        intro c hne
        by_contra hc
        rw [hupd, Function.update_noteq hc] at hne
        exact hne rfl
      refine ⟨?_, ?_, ?_⟩
      · intro c hc
        by_cases hcc : c = c0
        · rw [hcc] at hc; exact absurd hc0 hc
        · rw [hupd, Function.update_noteq hcc]
      · intro c c1 h h1
        rw [hchanged c h, hchanged c1 h1]
      · intro c h
        have hcc := hchanged c h
        rw [hcc]
        refine ⟨hc0, by rw [hupd, Function.update_same], ?_⟩
        rw [hupd, Function.update_same]
        omega
  · intro g0 p01 p02 k x hx
    refine ⟨fun c => ?_, gameStates_occupied g0 p01 p02 k x hx⟩
    have := (gameStates_cells g0 p01 p02 k x hx).2 c
    omega

/-- Witness for C19: the move of `sampleAgent` on `sampleGame`. -/
theorem simulateMove_keeps_marks_witness :
    ∃ g1 p1, simulateMove sampleGame sampleAgent 1 = some (g1, p1) ∧
      (∀ c : Fin 9, sampleGame.board c ≠ 0 → g1.board c = sampleGame.board c) ∧
      (∀ c c1 : Fin 9, g1.board c ≠ sampleGame.board c → g1.board c1 ≠ sampleGame.board c1 →
        c = c1) ∧
      (∀ c : Fin 9, g1.board c ≠ sampleGame.board c →
        sampleGame.board c = 0 ∧ g1.board c = 1 ∧ g1.board c ≠ 0) :=
  (simulateMove_keeps_marks sampleGame sampleAgent 1 (Or.inl rfl) (by decide)).1

/-! ## Independence of the weights -/

theorem evalRule_congr (g : PhilosopherGame) (r r1 : PhilosopherRule)
    (hv : r1.value = r.value) (ht : r1.result = r.result) : evalRule g r1 = evalRule g r := by
  unfold evalRule
  rw [hv]
  simp only [ht]

/-- The board that a scan produces does not depend on weights or adapters. -/
theorem simulateMoveLoop_congr (ad ad1 : GeneticRuleAdapter) (pv : Nat)
    (g : PhilosopherGame) (rules rules1 : List PhilosopherRule)
    (h : sameShape rules rules1) :
    (simulateMoveLoop ad pv g rules).map (fun out => out.1) =
      (simulateMoveLoop ad1 pv g rules1).map (fun out => out.1) := by
  unfold sameShape at h
  induction h with
  | nil => rfl
  | @cons r r1 rest rest1 hr _ ih =>
    have he := evalRule_congr g r r1 hr.1 hr.2
    simp only [simulateMoveLoop, he]
    cases evalRule g r with
    | none => rfl
    | some t =>
      simp only
      by_cases ht : t ≤ 8
      · simp only [dif_pos ht, Option.map_some']
      · simp only [dif_neg ht]
        split
        · simpa [Option.map_map, Function.comp] using ih
        · split
          · simpa [Option.map_map, Function.comp] using ih
          · simpa [Option.map_map, Function.comp] using ih

theorem simulateMove_congr (g : PhilosopherGame) (pv : Nat) (p q : Philosopher)
    (h : sameShape p.rules q.rules) :
    (simulateMove g p pv).map (fun out => out.1) =
      (simulateMove g q pv).map (fun out => out.1) := by
  have := simulateMoveLoop_congr p.adapter q.adapter pv g p.rules q.rules h
  simpa [simulateMove, Option.map_map, Function.comp] using this

/-- Agents of the same shape with weight-only adapters both fault on a move or both
return, with the same game and again the same shape. -/
theorem simulateMove_agree (g : PhilosopherGame) (pv : Nat) (p q : Philosopher)
    (h : sameShape p.rules q.rules) (hp : weightOnly p.adapter) (hq : weightOnly q.adapter) :
    (simulateMove g p pv = none ∧ simulateMove g q pv = none) ∨
    ∃ g1 p1 q1, simulateMove g p pv = some (g1, p1) ∧ simulateMove g q pv = some (g1, q1) ∧
      sameShape p1.rules q1.rules ∧ weightOnly p1.adapter ∧ weightOnly q1.adapter := by
  have hboard := simulateMove_congr g pv p q h
  cases hmp : simulateMove g p pv with
  | none =>
    rw [hmp] at hboard
    cases hmq : simulateMove g q pv with
    | none => exact Or.inl ⟨rfl, rfl⟩
    | some out => rw [hmq] at hboard; simp at hboard
  | some out =>
    obtain ⟨g1, p1⟩ := out
    rw [hmp] at hboard
    cases hmq : simulateMove g q pv with
    | none => rw [hmq] at hboard; simp at hboard
    | some out1 =>
      obtain ⟨g2, q1⟩ := out1
      rw [hmq] at hboard
      simp only [Option.map_some', Option.some.injEq] at hboard
      subst hboard
      obtain ⟨hap, _, hsp⟩ := simulateMove_sameShape g p pv g1 p1 hp hmp
      obtain ⟨haq, _, hsq⟩ := simulateMove_sameShape g q pv g1 q1 hq hmq
      exact Or.inr ⟨g1, p1, q1, rfl, rfl,
        sameShape_trans _ _ _ (sameShape_trans _ _ _ (sameShape_symm _ _ hsp) h) hsq,
        by rw [hap]; exact hp, by rw [haq]; exact hq⟩

theorem turnBody_agree (s s1 : GameState) (h : Agree s s1) :
    (turnBody s = none ∧ turnBody s1 = none) ∨
    ∃ x x1, turnBody s = some x ∧ turnBody s1 = some x1 ∧ Agree x x1 := by
  obtain ⟨_, hg, h1, h2, hw1, hw1', hw2, hw2'⟩ := h
  unfold turnBody
  simp only [← hg]
  by_cases hodd : (s.g.turn + 1) % 256 % 2 = 1
  · simp only [if_pos hodd]
    rcases simulateMove_agree ⟨s.g.board, (s.g.turn + 1) % 256⟩ 1 s.p01 s1.p01 h1 hw1 hw1'
      with ⟨hn, hn1⟩ | ⟨g1, p1, q1, hm, hm1, hsh, hwp, hwq⟩
    · rw [hn, hn1]; exact Or.inl ⟨rfl, rfl⟩
    · rw [hm, hm1]
      exact Or.inr ⟨_, _, rfl, rfl, rfl, rfl, hsh, h2, hwp, hwq, hw2, hw2'⟩
  · simp only [if_neg hodd]
    rcases simulateMove_agree ⟨s.g.board, (s.g.turn + 1) % 256⟩ 2 s.p02 s1.p02 h2 hw2 hw2'
      with ⟨hn, hn1⟩ | ⟨g1, p1, q1, hm, hm1, hsh, hwp, hwq⟩
    · rw [hn, hn1]; exact Or.inl ⟨rfl, rfl⟩
    · rw [hm, hm1]
      exact Or.inr ⟨_, _, rfl, rfl, rfl, rfl, h1, hsh, hw1, hw1', hwp, hwq⟩

theorem loopGuard_agree (s s1 : GameState) (h : Agree s s1) : loopGuard s = loopGuard s1 := by
  unfold loopGuard
  rw [h.1, h.2.1]

theorem gameTrace_agree (n : Nat) (s s1 : GameState) (h : Agree s s1) :
    List.Forall₂ Agree (gameTrace n s) (gameTrace n s1) := by
  induction n generalizing s s1 with
  | zero => exact List.Forall₂.nil
  | succ n ih =>
    unfold gameTrace
    rw [← loopGuard_agree s s1 h]
    by_cases hg : loopGuard s = true
    · simp only [if_pos hg]
      rcases turnBody_agree s s1 h with ⟨hn, hn1⟩ | ⟨x, x1, hb, hb1, hx⟩
      · rw [hn, hn1]; exact List.Forall₂.nil
      · rw [hb, hb1]; exact List.Forall₂.cons hx (ih x x1 hx)
    · simp only [if_neg hg]; exact List.Forall₂.nil

theorem simulateGameLoop_agree (n : Nat) (s s1 : GameState) (h : Agree s s1) :
    agreeRun (simulateGameLoop n s) (simulateGameLoop n s1) := by
  induction n generalizing s s1 with
  | zero =>
    unfold simulateGameLoop
    rw [← loopGuard_agree s s1 h]
    by_cases hg : loopGuard s = true
    · simp only [if_pos hg]; exact trivial
    · simp only [if_neg hg]; exact h
  | succ n ih =>
    unfold simulateGameLoop
    rw [← loopGuard_agree s s1 h]
    by_cases hg : loopGuard s = true
    · simp only [if_pos hg]
      rcases turnBody_agree s s1 h with ⟨hn, hn1⟩ | ⟨x, x1, hb, hb1, hx⟩
      · rw [hn, hn1]; exact trivial
      · rw [hb, hb1]; exact ih x x1 hx
    · simp only [if_neg hg]; exact h

theorem map_agree (l l1 : List GameState) (h : List.Forall₂ Agree l l1) :
    l.map (fun s => (s.g.board, s.g.turn, s.winner)) =
      l1.map (fun s => (s.g.board, s.g.turn, s.winner)) := by
  induction h with
  | nil => rfl
  | cons hab _ ih => simp only [List.map_cons, ih, hab.1, hab.2.1]

/-- C20: move selection does not depend on rule weights.  For two pairs of agents whose
rule lists agree index by index on pattern and target (weights arbitrary; adapters that
change only weights, as the default adapter), `simulateMove` on the same game and mark
faults for both or returns the same game for both; and `simulateGame` from an initialized
game goes through the same sequence of boards, turn counters and winner values, and
returns for both, or faults for both, with the same final board, final turn counter and
winner. -/
theorem weights_irrelevant (g : PhilosopherGame) (pv : Nat) (p01 p02 q01 q02 : Philosopher)
    (h1 : sameShape p01.rules q01.rules) (h2 : sameShape p02.rules q02.rules)
    (hp1 : weightOnly p01.adapter) (hp2 : weightOnly p02.adapter)
    (hq1 : weightOnly q01.adapter) (hq2 : weightOnly q02.adapter) :
    (simulateMove g p01 pv).map (fun out => out.1) =
      (simulateMove g q01 pv).map (fun out => out.1) ∧
    (∀ g0 : PhilosopherGame,
      (gameStates (startState g0 p01 p02)).map (fun s => (s.g.board, s.g.turn, s.winner)) =
        (gameStates (startState g0 q01 q02)).map (fun s => (s.g.board, s.g.turn, s.winner))) ∧
    (∀ g0 : PhilosopherGame,
      (simulateGame (initializeGame g0) p01 p02).final.map
          (fun s => (s.g.board, s.g.turn, evalWinner s.g)) =
        (simulateGame (initializeGame g0) q01 q02).final.map
          (fun s => (s.g.board, s.g.turn, evalWinner s.g)) ∧
      (simulateGame (initializeGame g0) p01 p02 = Run.fault ↔
        simulateGame (initializeGame g0) q01 q02 = Run.fault)) := by
  have hstart : ∀ g0, Agree (startState g0 p01 p02) (startState g0 q01 q02) :=
    fun g0 => ⟨rfl, rfl, h1, h2, hp1, hq1, hp2, hq2⟩
  refine ⟨simulateMove_congr g pv p01 q01 h1, ?_, ?_⟩
  · intro g0
    exact map_agree _ _
      (List.Forall₂.cons (hstart g0) (gameTrace_agree 10 _ _ (hstart g0)))
  · intro g0
    have hrun := simulateGameLoop_agree 10 _ _ (hstart g0)
    have hp : simulateGame (initializeGame g0) p01 p02 =
        simulateGameLoop 10 (startState g0 p01 p02) := rfl
    have hq : simulateGame (initializeGame g0) q01 q02 =
        simulateGameLoop 10 (startState g0 q01 q02) := rfl
    rw [hp, hq]
    cases hr : simulateGameLoop 10 (startState g0 p01 p02) with
    | returned s =>
      cases hr1 : simulateGameLoop 10 (startState g0 q01 q02) with
      | returned s1 =>
        rw [hr, hr1] at hrun
        have hag : Agree s s1 := hrun
        simp [Run.final, hag.2.1]
      | fault => rw [hr, hr1] at hrun; exact absurd hrun id
      | outOfFuel => rw [hr, hr1] at hrun; exact absurd hrun id
    | fault =>
      cases hr1 : simulateGameLoop 10 (startState g0 q01 q02) with
      | returned s1 => rw [hr, hr1] at hrun; exact absurd hrun id
      | fault => simp [Run.final]
      | outOfFuel => rw [hr, hr1] at hrun; exact absurd hrun id
    | outOfFuel =>
      cases hr1 : simulateGameLoop 10 (startState g0 q01 q02) with
      | returned s1 => rw [hr, hr1] at hrun; exact absurd hrun id
      | fault => rw [hr, hr1] at hrun; exact absurd hrun id
      | outOfFuel => simp [Run.final]

/-- Witness for C20: `eagerAgent` and `eagerAgentWeighted` against `silentAgent`. -/
theorem weights_irrelevant_witness :
    (simulateMove sampleGame eagerAgent 1).map (fun out => out.1) =
      (simulateMove sampleGame eagerAgentWeighted 1).map (fun out => out.1) ∧
    (∀ g0 : PhilosopherGame,
      (gameStates (startState g0 eagerAgent silentAgent)).map
          (fun s => (s.g.board, s.g.turn, s.winner)) =
        (gameStates (startState g0 eagerAgentWeighted silentAgent)).map
          (fun s => (s.g.board, s.g.turn, s.winner))) ∧
    (∀ g0 : PhilosopherGame,
      (simulateGame (initializeGame g0) eagerAgent silentAgent).final.map
          (fun s => (s.g.board, s.g.turn, evalWinner s.g)) =
        (simulateGame (initializeGame g0) eagerAgentWeighted silentAgent).final.map
          (fun s => (s.g.board, s.g.turn, evalWinner s.g)) ∧
      (simulateGame (initializeGame g0) eagerAgent silentAgent = Run.fault ↔
        simulateGame (initializeGame g0) eagerAgentWeighted silentAgent = Run.fault)) :=
  weights_irrelevant sampleGame 1 eagerAgent silentAgent eagerAgentWeighted silentAgent
    (List.Forall₂.cons ⟨rfl, rfl⟩ (List.Forall₂.cons ⟨rfl, rfl⟩ List.Forall₂.nil))
    List.Forall₂.nil weightOnly_default weightOnly_default weightOnly_default
    weightOnly_default

end Philosophers
